import Mathlib

/-
  Verification of the clear-cube block model: a shallow embedding of the
  geometric core (axes, directions, integer boxes, collision tests, movement
  resolution, procedural level generation and the locked-block pruning pass),
  together with proofs of the behavioural properties stated for it.

  Machine floating point (f32) only ever touches half-integer values coming
  from midpoints of integer vectors here; those are represented exactly, so
  the embedding uses exact rational arithmetic (Rat) for the f32 values.
-/

namespace ClearCube

/-- The three coordinate axes. -/
inductive Axis where
  | X
  | Y
  | Z
  deriving DecidableEq, Repr

/-- All axes, in the fixed X, Y, Z order. -/
def Axis.ALL : List Axis := [Axis.X, Axis.Y, Axis.Z]

/-- The two axes orthogonal to a given axis (NOX / NOY / NOZ in the source). -/
def Axis.remaining_two : Axis → List Axis
  | Axis.X => [Axis.Y, Axis.Z]
  | Axis.Y => [Axis.Z, Axis.X]
  | Axis.Z => [Axis.X, Axis.Y]

/-- A signed direction: an axis plus a polarity. -/
structure Direction where
  axis : Axis
  positive : Bool
  deriving DecidableEq, Repr

/-- Integer 3-vector (i32 coordinates of the source, modelled as Int). -/
structure IVec3 where
  x : Int
  y : Int
  z : Int
  deriving DecidableEq, Repr

/-- Exact model of the f32 3-vectors arising in the program. -/
structure Vec3Q where
  x : Rat
  y : Rat
  z : Rat
  deriving DecidableEq, Repr

/-- Integer 2-vector. -/
structure IVec2 where
  x : Int
  y : Int
  deriving DecidableEq, Repr

/-- Exact model of the f32 2-vectors arising in the program. -/
structure Vec2Q where
  x : Rat
  y : Rat
  deriving DecidableEq, Repr

def IVec3.sub (a b : IVec3) : IVec3 := ⟨a.x - b.x, a.y - b.y, a.z - b.z⟩

def IVec3.as_vec3 (v : IVec3) : Vec3Q := ⟨(v.x : Rat), (v.y : Rat), (v.z : Rat)⟩

def Vec3Q.sub (a b : Vec3Q) : Vec3Q := ⟨a.x - b.x, a.y - b.y, a.z - b.z⟩

def Vec3Q.dot (a b : Vec3Q) : Rat := a.x * b.x + a.y * b.y + a.z * b.z

def Vec3Q.smul (c : Rat) (a : Vec3Q) : Vec3Q := ⟨c * a.x, c * a.y, c * a.z⟩

/-- glam midpoint: (self + rhs) * 0.5. -/
def Vec3Q.midpoint (a b : Vec3Q) : Vec3Q :=
  Vec3Q.smul (1/2) ⟨a.x + b.x, a.y + b.y, a.z + b.z⟩

def Axis.unit_vector : Axis → Vec3Q
  | Axis.X => ⟨1, 0, 0⟩
  | Axis.Y => ⟨0, 1, 0⟩
  | Axis.Z => ⟨0, 0, 1⟩

def Axis.vec3_component (a : Axis) (v : Vec3Q) : Rat :=
  match a with
  | Axis.X => v.x
  | Axis.Y => v.y
  | Axis.Z => v.z

/-- Modelled from the spec: "extraction of a vector's component along the
axis" for integer vectors (the `ivec3_component` helper is called by the
source but its definition is not among the provided files). -/
def Axis.ivec3_component (a : Axis) (v : IVec3) : Int :=
  match a with
  | Axis.X => v.x
  | Axis.Y => v.y
  | Axis.Z => v.z

def Direction.sign (d : Direction) : Int :=
  if d.positive then 1 else -1

def Direction.unit_vector (d : Direction) : Vec3Q :=
  Vec3Q.smul ((d.sign : Int) : Rat) d.axis.unit_vector

/-- bevy IRect: an axis-aligned integer rectangle. -/
structure IRect where
  min : IVec2
  max : IVec2
  deriving DecidableEq, Repr

/-- bevy IRect::new: builds the rectangle from two opposite corners,
normalising so that min ≤ max componentwise. -/
def IRect.mk4 (x0 y0 x1 y1 : Int) : IRect :=
  ⟨⟨Min.min x0 x1, Min.min y0 y1⟩, ⟨Max.max x0 x1, Max.max y0 y1⟩⟩

/-- bevy IRect::intersect: componentwise max of mins / min of maxes, with the
min corner collapsed onto the max corner when the rectangles are disjoint. -/
def IRect.intersect (r o : IRect) : IRect :=
  let mn : IVec2 := ⟨Max.max r.min.x o.min.x, Max.max r.min.y o.min.y⟩
  let mx : IVec2 := ⟨Min.min r.max.x o.max.x, Min.min r.max.y o.max.y⟩
  ⟨⟨Min.min mn.x mx.x, Min.min mn.y mx.y⟩, mx⟩

/-- bevy IRect::is_empty: some component of min is ≥ the matching max. -/
def IRect.is_empty (r : IRect) : Bool :=
  decide (r.max.x ≤ r.min.x) || decide (r.max.y ≤ r.min.y)

def check_overlap_rectangles (rect1 rect2 : IRect) : Bool :=
  !(rect1.intersect rect2).is_empty

/-- An axis-aligned block with an assigned slide direction. -/
structure Block where
  direction : Direction
  min : IVec3
  max : IVec3
  deriving DecidableEq, Repr

/-- Projects both blocks onto the plane orthogonal to the direction's axis and
tests the resulting rectangles for overlap. -/
def check_overlap_in_direction (b1 b2 : Block) (direction : Direction) : Bool :=
  let rects : IRect × IRect :=
    match direction.axis with
    | Axis.X =>
        (IRect.mk4 b1.min.y b1.min.z b1.max.y b1.max.z,
         IRect.mk4 b2.min.y b2.min.z b2.max.y b2.max.z)
    | Axis.Y =>
        (IRect.mk4 b1.min.x b1.min.z b1.max.x b1.max.z,
         IRect.mk4 b2.min.x b2.min.z b2.max.x b2.max.z)
    | Axis.Z =>
        (IRect.mk4 b1.min.x b1.min.y b1.max.x b1.max.y,
         IRect.mk4 b2.min.x b2.min.y b2.max.x b2.max.y)
  check_overlap_rectangles rects.1 rects.2

def Block.get_isize (b : Block) : IVec3 := b.max.sub b.min

def Block.get_center (b : Block) : Vec3Q :=
  Vec3Q.midpoint b.max.as_vec3 b.min.as_vec3

/-- The axis along which the block has size 2, if any. -/
def Block.get_elongation (b : Block) : Option Axis :=
  match b.get_isize with
  | ⟨1, 1, 1⟩ => none
  | ⟨2, 1, 1⟩ => some Axis.X
  | ⟨1, 2, 1⟩ => some Axis.Y
  | ⟨1, 1, 2⟩ => some Axis.Z
  | _ => none

/-- Directional, lane-restricted forward-collision test. -/
def Block.possible_collision (s b : Block) : Bool :=
  let not_self : Bool := decide (b ≠ s)
  let diff := Vec3Q.sub b.get_center s.get_center
  let ahead : Bool := decide ((1 : Rat) ≤ Vec3Q.dot s.direction.unit_vector diff)
  let in_the_way : Bool :=
    s.direction.axis.remaining_two.all (fun ax => decide (|ax.vec3_component diff| < 1))
  not_self && ahead && in_the_way

/-- Truncation of a rational toward zero: the `as i32` cast applied to the
(exactly represented) f32 forward distance. -/
def ratTrunc (q : Rat) : Int := Int.tdiv q.num (q.den : Int)

/-- The integer key minimised by get_nearest_block_in_front. -/
def move_key (s b : Block) : Int :=
  ratTrunc (Vec3Q.dot s.direction.unit_vector (Vec3Q.sub b.get_center s.get_center))

/-- Rust Iterator::min_by_key's accumulator loop: the running minimum is
replaced only on a strict decrease, so the first minimiser wins ties. -/
def min_by_key_go {α : Type} (key : α → Int) (cur : α) : List α → α
  | [] => cur
  | b :: bs => min_by_key_go key (if key b < key cur then b else cur) bs

/-- Rust Iterator::min_by_key on a list. -/
def min_by_key {α : Type} (key : α → Int) : List α → Option α
  | [] => none
  | b :: bs => some (min_by_key_go key b bs)

def Block.get_blocks_in_front (s : Block) (all_blocks : List Block) : List Block :=
  all_blocks.filter (fun b => s.possible_collision b)

def Block.get_nearest_block_in_front (s : Block) (all_blocks : List Block) : Option Block :=
  min_by_key (move_key s) (all_blocks.filter (fun b => s.possible_collision b))

/-- Movement resolution: slide s along its direction until it touches
static_block, or return none. -/
def Block.move_block (s static_block : Block) : Option Block :=
  if check_overlap_in_direction s static_block s.direction then
    let length : Int := if s.get_elongation = some s.direction.axis then 2 else 1
    match s.direction.axis, s.direction.positive with
    | Axis.X, true =>
        if s.max.x ≤ static_block.min.x then
          some ⟨s.direction,
                ⟨static_block.min.x - length, s.min.y, s.min.z⟩,
                ⟨static_block.min.x, s.max.y, s.max.z⟩⟩
        else none
    | Axis.X, false =>
        if static_block.min.x ≤ s.max.x then
          some ⟨s.direction,
                ⟨static_block.max.x, s.min.y, s.min.z⟩,
                ⟨static_block.max.x + length, s.max.y, s.max.z⟩⟩
        else none
    | Axis.Y, true =>
        if s.max.y ≤ static_block.min.y then
          some ⟨s.direction,
                ⟨s.min.x, static_block.min.y - length, s.min.z⟩,
                ⟨s.max.x, static_block.min.y, s.max.z⟩⟩
        else none
    | Axis.Y, false =>
        if static_block.min.y ≤ s.max.y then
          some ⟨s.direction,
                ⟨s.min.x, static_block.max.y, s.min.z⟩,
                ⟨s.max.x, static_block.max.y + length, s.max.z⟩⟩
        else none
    | Axis.Z, true =>
        if s.max.z ≤ static_block.min.z then
          some ⟨s.direction,
                ⟨s.min.x, s.min.y, static_block.min.z - length⟩,
                ⟨s.max.x, s.max.y, static_block.min.z⟩⟩
        else none
    | Axis.Z, false =>
        if static_block.min.z ≤ s.max.z then
          some ⟨s.direction,
                ⟨s.min.x, s.min.y, static_block.max.z⟩,
                ⟨s.max.x, s.max.y, static_block.max.z + length⟩⟩
        else none
  else none

lemma remaining_two_mem_iff (a ax : Axis) : ax ∈ a.remaining_two ↔ ax ≠ a := by
  cases a <;> cases ax <;> simp [Axis.remaining_two]

/-- The shape facts C1 asserts about a successful move: direction preserved,
off-axis bounds preserved, and the travel-axis extent placed against the
obstacle with the elongation-dependent length. -/
def move_geometry_ok (s o nb : Block) : Prop :=
  nb.direction = s.direction ∧
  (∀ ax, ax ≠ s.direction.axis →
      ax.ivec3_component nb.min = ax.ivec3_component s.min ∧
      ax.ivec3_component nb.max = ax.ivec3_component s.max) ∧
  (s.direction.axis.ivec3_component nb.max - s.direction.axis.ivec3_component nb.min =
      (if s.get_elongation = some s.direction.axis then 2 else 1)) ∧
  (s.direction.positive = true →
      s.direction.axis.ivec3_component nb.max = s.direction.axis.ivec3_component o.min) ∧
  (s.direction.positive = false →
      s.direction.axis.ivec3_component nb.min = s.direction.axis.ivec3_component o.max)

/-- Claim C1: whenever move_block returns a new block, the new block touches
the obstacle's facing face on the travel axis (new max = obstacle min for
positive directions, new min = obstacle max for negative ones), its length on
that axis is 2 exactly when the mover is elongated along its own travel axis
and 1 otherwise, and the direction and the two off-axis extents are
unchanged. -/
theorem c1_move_block_geometry (s o nb : Block) (h : s.move_block o = some nb) :
    move_geometry_ok s o nb := by
  rcases s with ⟨⟨ax, pos⟩, mn, mx⟩
  cases ax <;> cases pos
  all_goals
    (simp only [Block.move_block] at h
     split at h
     case isFalse => exact Option.noConfusion h
     split at h
     case isFalse => exact Option.noConfusion h
     injection h with h2
     subst h2
     refine ⟨rfl, ?_, ?_, ?_, ?_⟩
     · intro a ha
       cases a <;> simp_all [Axis.ivec3_component]
     · simp only [Axis.ivec3_component]
       split <;> omega
     · intro hp
       simp_all [Axis.ivec3_component]
     · intro hp
       simp_all [Axis.ivec3_component])

def c1self : Block := ⟨⟨Axis.X, true⟩, ⟨4, 0, 0⟩, ⟨5, 1, 1⟩⟩
def c1obs : Block := ⟨⟨Axis.X, true⟩, ⟨10, 0, 0⟩, ⟨11, 1, 1⟩⟩
def c1res : Block := ⟨⟨Axis.X, true⟩, ⟨9, 0, 0⟩, ⟨10, 1, 1⟩⟩

/-- Claim C1 witness: the worked example from the claim, a unit +X mover at
max.x = 5 against an obstacle with min.x = 10 ends at min.x = 9, max.x = 10. -/
theorem c1_witness :
    c1self.move_block c1obs = some c1res ∧ c1res.min.x = 9 ∧ c1res.max.x = 10 ∧
    move_geometry_ok c1self c1obs c1res :=
  ⟨by decide, by decide, by decide, c1_move_block_geometry c1self c1obs c1res (by decide)⟩

def c3self : Block := ⟨⟨Axis.X, false⟩, ⟨5, 0, 0⟩, ⟨6, 1, 1⟩⟩
def c3obs : Block := ⟨⟨Axis.X, true⟩, ⟨6, 0, 0⟩, ⟨7, 1, 1⟩⟩

/-- Claim C3 counterexample: for a −X mover the code's guard is
self.max.x ≥ obstacle.min.x, not the claimed mirror self.min.x ≥
obstacle.max.x: here lane overlap holds, the claimed guard fails, yet
move_block still returns a block. -/
theorem c3_counterexample :
    check_overlap_in_direction c3self c3obs c3self.direction = true ∧
    (c3self.move_block c3obs).isSome = true ∧
    ¬ (c3obs.max.x ≤ c3self.min.x) := by decide

/-- Claim C3, amended: under lane overlap, move_block returns a block exactly
when self.max ≤ obstacle.min holds on the travel axis for positive directions,
and when self.max ≥ obstacle.min holds there for negative directions (the
code compares max against min in both polarities). -/
theorem c3_amended_guard (s o : Block)
    (hov : check_overlap_in_direction s o s.direction = true) :
    (s.move_block o).isSome = true ↔
      (if s.direction.positive then
        s.direction.axis.ivec3_component s.max ≤ s.direction.axis.ivec3_component o.min
       else
        s.direction.axis.ivec3_component o.min ≤ s.direction.axis.ivec3_component s.max) := by
  rcases s with ⟨⟨ax, pos⟩, mn, mx⟩
  cases ax <;> cases pos <;>
    simp only [Block.move_block, hov, if_true] <;>
    split <;> simp_all [Axis.ivec3_component]

/-- Claim C3 witness: a concrete instance of the amended guard equivalence,
for a unit +X mover with lane overlap against an obstacle ahead. -/
theorem c3_amended_witness :
    check_overlap_in_direction c1self c1obs c1self.direction = true ∧
    ((c1self.move_block c1obs).isSome = true ↔
      (if c1self.direction.positive then
        c1self.direction.axis.ivec3_component c1self.max ≤
          c1self.direction.axis.ivec3_component c1obs.min
       else
        c1self.direction.axis.ivec3_component c1obs.min ≤
          c1self.direction.axis.ivec3_component c1self.max)) :=
  ⟨by decide, c3_amended_guard c1self c1obs (by decide)⟩

/-- Claim C4: possible_collision holds exactly when the other block differs
from self, the center-to-center vector has component at least one along
self's direction unit vector, and components of absolute value below one on
both axes other than the travel axis; in particular it is irreflexive. -/
theorem c4_possible_collision_characterisation :
    (∀ s b : Block, s.possible_collision b = true ↔
      (b ≠ s ∧
       1 ≤ Vec3Q.dot s.direction.unit_vector (Vec3Q.sub b.get_center s.get_center) ∧
       ∀ ax, ax ≠ s.direction.axis →
         |ax.vec3_component (Vec3Q.sub b.get_center s.get_center)| < 1)) ∧
    (∀ b : Block, b.possible_collision b = false) := by
  constructor
  · intro s b
    simp only [Block.possible_collision, Bool.and_eq_true, decide_eq_true_eq,
      List.all_eq_true, remaining_two_mem_iff]
    tauto
  · intro b
    simp [Block.possible_collision]

/-- Claim C4 witness: a concrete evaluation of the characterisation, for a
unit +X mover and a unit block one cell ahead. -/
theorem c4_witness :
    (c1self.possible_collision c3obs = true ↔
      (c3obs ≠ c1self ∧
       1 ≤ Vec3Q.dot c1self.direction.unit_vector
             (Vec3Q.sub c3obs.get_center c1self.get_center) ∧
       ∀ ax, ax ≠ c1self.direction.axis →
         |ax.vec3_component (Vec3Q.sub c3obs.get_center c1self.get_center)| < 1)) ∧
    c1self.possible_collision c1self = false :=
  ⟨c4_possible_collision_characterisation.1 c1self c3obs,
   c4_possible_collision_characterisation.2 c1self⟩

/-- Claim C7: when the lane-overlap precondition fails for the mover's travel
axis, move_block returns none. -/
theorem c7_no_lane_overlap_no_move (s o : Block)
    (h : check_overlap_in_direction s o s.direction = false) :
    s.move_block o = none := by
  simp [Block.move_block, h]

def c7obs : Block := ⟨⟨Axis.X, true⟩, ⟨0, 5, 0⟩, ⟨1, 6, 1⟩⟩

/-- Claim C7 witness: a unit +X mover and an obstacle offset five lanes
sideways do not overlap orthogonally to X, and the move is refused. -/
theorem c7_witness :
    check_overlap_in_direction c1self c7obs c1self.direction = false ∧
    c1self.move_block c7obs = none :=
  ⟨by decide, c7_no_lane_overlap_no_move c1self c7obs (by decide)⟩

/-- The first minimiser, written from the claim's words: the first block in
input order whose key is at most every listed block's key. -/
def firstMinByKey {α : Type} (key : α → Int) (l : List α) : Option α :=
  l.find? (fun x => l.all (fun y => decide (key x ≤ key y)))

lemma find?_congr_on {α : Type} (p q : α → Bool) :
    ∀ l : List α, (∀ x ∈ l, p x = q x) → l.find? p = l.find? q := by
  intro l
  induction l with
  | nil => intro _; rfl
  | cons a t ih =>
    intro h
    have ha : p a = q a := h a (List.mem_cons_self a t)
    by_cases hp : p a = true
    · rw [List.find?_cons_of_pos _ hp, List.find?_cons_of_pos _ (by rw [← ha]; exact hp)]
    · rw [List.find?_cons_of_neg _ hp, List.find?_cons_of_neg _ (by rw [← ha]; exact hp)]
      exact ih (fun x hx => h x (List.mem_cons_of_mem a hx))

lemma find?_cons_eval {α : Type} (p : α → Bool) (a : α) (l : List α) :
    List.find? p (a :: l) = if p a = true then some a else List.find? p l := by
  by_cases h : p a = true
  · rw [List.find?_cons_of_pos _ h, if_pos h]
  · rw [List.find?_cons_of_neg _ h, if_neg h]

lemma min_by_key_go_eq {α : Type} (key : α → Int) :
    ∀ (l : List α) (cur : α),
      some (min_by_key_go key cur l) = firstMinByKey key (cur :: l) := by
  intro l
  induction l with
  | nil =>
    intro cur
    simp [min_by_key_go, firstMinByKey]
  | cons b bs ih =>
    intro cur
    rw [min_by_key_go, ih]
    unfold firstMinByKey
    by_cases hlt : key b < key cur
    · rw [if_pos hlt]
      rw [find?_cons_eval (fun x => (cur :: b :: bs).all fun y => decide (key x ≤ key y)) cur
          (b :: bs)]
      have hRcur :
          ¬ (((cur :: b :: bs).all fun y => decide (key cur ≤ key y)) = true) := by
        simp only [List.all_cons, Bool.and_eq_true, decide_eq_true_eq]
        rintro ⟨-, h2, -⟩
        omega
      rw [if_neg hRcur]
      apply find?_congr_on
      intro x hx
      apply Bool.eq_iff_iff.mpr
      simp only [List.all_cons, Bool.and_eq_true, decide_eq_true_eq]
      constructor
      · rintro ⟨h1, h2⟩
        exact ⟨by omega, h1, h2⟩
      · rintro ⟨-, h1, h2⟩
        exact ⟨h1, h2⟩
    · rw [if_neg hlt]
      rw [find?_cons_eval (fun x => (cur :: bs).all fun y => decide (key x ≤ key y)) cur bs]
      rw [find?_cons_eval (fun x => (cur :: b :: bs).all fun y => decide (key x ≤ key y)) cur
          (b :: bs)]
      by_cases hcur : ∀ y ∈ bs, key cur ≤ key y
      · have h1 : ((cur :: bs).all fun y => decide (key cur ≤ key y)) = true := by
          simp only [List.all_cons, Bool.and_eq_true, decide_eq_true_eq, List.all_eq_true]
          exact ⟨le_refl _, hcur⟩
        have h2 : ((cur :: b :: bs).all fun y => decide (key cur ≤ key y)) = true := by
          simp only [List.all_cons, Bool.and_eq_true, decide_eq_true_eq, List.all_eq_true]
          exact ⟨le_refl _, by omega, hcur⟩
        rw [if_pos h1, if_pos h2]
      · have h1 : ¬ (((cur :: bs).all fun y => decide (key cur ≤ key y)) = true) := by
          simp only [List.all_cons, Bool.and_eq_true, decide_eq_true_eq, List.all_eq_true]
          rintro ⟨-, h⟩
          exact hcur h
        have h2 : ¬ (((cur :: b :: bs).all fun y => decide (key cur ≤ key y)) = true) := by
          simp only [List.all_cons, Bool.and_eq_true, decide_eq_true_eq, List.all_eq_true]
          rintro ⟨-, -, h⟩
          exact hcur h
        rw [if_neg h1, if_neg h2]
        rw [find?_cons_eval (fun x => (cur :: b :: bs).all fun y => decide (key x ≤ key y)) b bs]
        have hb : ¬ (((cur :: b :: bs).all fun y => decide (key b ≤ key y)) = true) := by
          simp only [List.all_cons, Bool.and_eq_true, decide_eq_true_eq, List.all_eq_true]
          rintro ⟨hbc, -, hball⟩
          apply hcur
          intro y hy
          have := hball y hy
          omega
        rw [if_neg hb]
        apply find?_congr_on
        intro x hx
        apply Bool.eq_iff_iff.mpr
        simp only [List.all_cons, Bool.and_eq_true, decide_eq_true_eq]
        constructor
        · rintro ⟨h3, h4⟩
          exact ⟨h3, by omega, h4⟩
        · rintro ⟨h3, -, h4⟩
          exact ⟨h3, h4⟩

lemma min_by_key_eq_firstMin {α : Type} (key : α → Int) (l : List α) :
    min_by_key key l = firstMinByKey key l := by
  cases l with
  | nil => rfl
  | cons b bs => exact min_by_key_go_eq key bs b

/-- Claim C8: get_nearest_block_in_front returns none exactly when no listed
block passes possible_collision, and otherwise the first block in input
order whose integer-truncated forward distance is minimal among the
passing blocks. -/
theorem c8_nearest_block (s : Block) (all_blocks : List Block) :
    s.get_nearest_block_in_front all_blocks =
      firstMinByKey (move_key s) (all_blocks.filter (fun b => s.possible_collision b)) ∧
    (s.get_nearest_block_in_front all_blocks = none ↔
      (all_blocks.filter (fun b => s.possible_collision b)) = []) := by
  constructor
  · exact min_by_key_eq_firstMin _ _
  · unfold Block.get_nearest_block_in_front
    cases h : all_blocks.filter (fun b => s.possible_collision b) with
    | nil => simp [min_by_key]
    | cons b bs => simp [min_by_key]

def c8far : Block := ⟨⟨Axis.X, true⟩, ⟨10, 0, 0⟩, ⟨11, 1, 1⟩⟩
def c8near : Block := ⟨⟨Axis.X, true⟩, ⟨6, 0, 0⟩, ⟨7, 1, 1⟩⟩

/-- Claim C8 witness: a concrete instantiation with two blocks ahead of a
unit +X mover. -/
theorem c8_witness :
    c1self.get_nearest_block_in_front [c8far, c8near] =
      firstMinByKey (move_key c1self) ([c8far, c8near].filter (fun b => c1self.possible_collision b)) ∧
    (c1self.get_nearest_block_in_front [c8far, c8near] = none ↔
      ([c8far, c8near].filter (fun b => c1self.possible_collision b)) = []) :=
  c8_nearest_block c1self [c8far, c8near]

def project_vec (v : Vec3Q) (axes : List Axis) : Vec2Q :=
  ⟨(axes.getD 0 Axis.X).vec3_component v, (axes.getD 1 Axis.X).vec3_component v⟩

def project_ivec (v : IVec3) (axes : List Axis) : IVec2 :=
  ⟨(axes.getD 0 Axis.X).ivec3_component v, (axes.getD 1 Axis.X).ivec3_component v⟩

def Vec2Q.sub (a b : Vec2Q) : Vec2Q := ⟨a.x - b.x, a.y - b.y⟩

def Vec2Q.abs2 (a : Vec2Q) : Vec2Q := ⟨|a.x|, |a.y|⟩

def Vec2Q.element_sum (a : Vec2Q) : Rat := a.x + a.y

/-- Keeps the blocks whose center, projected orthogonally to dir, is within
Manhattan distance one half of the query point. -/
def extract_along_line (dir : Axis) (point : Vec2Q) (blocks : List Block) : List Block :=
  let other := dir.remaining_two
  blocks.filter (fun b =>
    let proj := project_vec b.get_center other
    let manhattan_dist := ((proj.sub point).abs2).element_sum
    decide (manhattan_dist ≤ 1/2))

/-- The query-point proximity test of extract_along_line, as a proposition. -/
def on_line (dir : Axis) (point : Vec2Q) (b : Block) : Prop :=
  (((project_vec b.get_center dir.remaining_two).sub point).abs2).element_sum ≤ 1/2

/-- Claim C10: extract_along_line keeps exactly the blocks whose projected
center is within Manhattan distance one half of the query point, preserves
the input order (its output is a sublist of the input), and keeps blocks at
distance exactly one half. -/
theorem c10_extract_along_line (dir : Axis) (point : Vec2Q) (blocks : List Block) :
    (∀ b, b ∈ extract_along_line dir point blocks ↔ b ∈ blocks ∧ on_line dir point b) ∧
    (extract_along_line dir point blocks).Sublist blocks ∧
    (∀ b ∈ blocks,
      (((project_vec b.get_center dir.remaining_two).sub point).abs2).element_sum = 1/2 →
      b ∈ extract_along_line dir point blocks) := by
  refine ⟨?_, ?_, ?_⟩
  · intro b
    simp [extract_along_line, List.mem_filter, on_line]
  · exact List.filter_sublist blocks
  · intro b hb heq
    simp only [extract_along_line, List.mem_filter]
    exact ⟨hb, by rw [heq]; simp⟩

/-- Claim C10 witness: a concrete line query along X through cell (0,0)
retains the one block centered on it, at distance zero, in input order. -/
theorem c10_witness :
    (∀ b, b ∈ extract_along_line Axis.X ⟨1/2, 1/2⟩ [c1self, c7obs] ↔
      b ∈ [c1self, c7obs] ∧ on_line Axis.X ⟨1/2, 1/2⟩ b) ∧
    (extract_along_line Axis.X ⟨1/2, 1/2⟩ [c1self, c7obs]).Sublist [c1self, c7obs] ∧
    (∀ b ∈ [c1self, c7obs],
      (((project_vec b.get_center (Axis.X).remaining_two).sub ⟨1/2, 1/2⟩).abs2).element_sum = 1/2 →
      b ∈ extract_along_line Axis.X ⟨1/2, 1/2⟩ [c1self, c7obs]) :=
  c10_extract_along_line Axis.X ⟨1/2, 1/2⟩ [c1self, c7obs]

/-- The accumulator loop of locked_blocks_to_remove: push a positive block to
forward while backward is still empty, push a negative block to backward once
forward is non-empty, with both emptiness tests taken before either push. -/
def locked_scan : List Block → List Block × List Block → List Block × List Block
  | [], fb => fb
  | block :: rest, (forward, backward) =>
      let seen_positive : Bool := !forward.isEmpty
      let seen_negative : Bool := !backward.isEmpty
      let forward2 :=
        if !seen_negative && block.direction.positive then forward ++ [block] else forward
      let backward2 :=
        if seen_positive && !block.direction.positive then backward ++ [block] else backward
      locked_scan rest (forward2, backward2)

/-- Scans a line of blocks and reports the locked ones. -/
def locked_blocks_to_remove (blocks : List Block) : List Block :=
  let fb := locked_scan blocks ([], [])
  if !fb.1.isEmpty && !fb.2.isEmpty then fb.1 ++ fb.2 else []

/-- Amended spec scan for the forward list: positive blocks accumulated as
long as no negative block that follows a positive one has occurred; the flag
records whether a positive block has been seen. -/
def forwardSpec : Bool → List Block → List Block
  | _, [] => []
  | sp, b :: bs =>
      if b.direction.positive then b :: forwardSpec true bs
      else if sp then [] else forwardSpec sp bs

/-- Spec scan for the backward list: negative blocks occurring after at least
one positive block has been seen. -/
def backwardSpec : Bool → List Block → List Block
  | _, [] => []
  | sp, b :: bs =>
      if b.direction.positive then backwardSpec true bs
      else if sp then b :: backwardSpec sp bs else backwardSpec sp bs

/-- The claim's literal forward list: positive blocks occurring before any
negative-direction block has been seen at all. -/
def forwardClaim (l : List Block) : List Block :=
  l.takeWhile (fun b => b.direction.positive)

/-- The removal set as the claim literally describes it. -/
def lockedClaimResult (l : List Block) : List Block :=
  if !(forwardClaim l).isEmpty && !(backwardSpec false l).isEmpty then
    forwardClaim l ++ backwardSpec false l
  else []

/-- The removal set under the amended reading of the scan. -/
def lockedSpecAmended (l : List Block) : List Block :=
  if !(forwardSpec false l).isEmpty && !(backwardSpec false l).isEmpty then
    forwardSpec false l ++ backwardSpec false l
  else []

lemma backwardSpec_true_eq_filter (l : List Block) :
    backwardSpec true l = l.filter (fun b => !b.direction.positive) := by
  induction l with
  | nil => rfl
  | cons b bs ih =>
    by_cases h : b.direction.positive
    · simp [backwardSpec, h, List.filter_cons, ih]
    · simp [backwardSpec, h, List.filter_cons, ih]

lemma locked_scan_saturated (bs : List Block) :
    ∀ fwd bwd : List Block, fwd.isEmpty = false → bwd.isEmpty = false →
      locked_scan bs (fwd, bwd) =
        (fwd, bwd ++ bs.filter (fun b => !b.direction.positive)) := by
  induction bs with
  | nil => intro fwd bwd _ _; simp [locked_scan]
  | cons b rest ih =>
    intro fwd bwd hf hb
    by_cases hpos : b.direction.positive
    · have hscan : locked_scan (b :: rest) (fwd, bwd) = locked_scan rest (fwd, bwd) := by
        simp [locked_scan, hf, hb, hpos]
      rw [hscan, ih fwd bwd hf hb]
      simp [List.filter_cons, hpos]
    · have hscan :
          locked_scan (b :: rest) (fwd, bwd) = locked_scan rest (fwd, bwd ++ [b]) := by
        simp [locked_scan, hf, hb, hpos]
      rw [hscan, ih fwd (bwd ++ [b]) hf (by simp)]
      simp [List.filter_cons, hpos]

lemma locked_scan_spec (bs : List Block) :
    ∀ fwd : List Block,
      locked_scan bs (fwd, []) =
        (fwd ++ forwardSpec (!fwd.isEmpty) bs, backwardSpec (!fwd.isEmpty) bs) := by
  induction bs with
  | nil => intro fwd; simp [locked_scan, forwardSpec, backwardSpec]
  | cons b rest ih =>
    intro fwd
    by_cases hpos : b.direction.positive
    · have hscan :
          locked_scan (b :: rest) (fwd, []) = locked_scan rest (fwd ++ [b], []) := by
        simp [locked_scan, hpos]
      have hne : (fwd ++ [b]).isEmpty = false := by simp
      rw [hscan, ih (fwd ++ [b])]
      simp [forwardSpec, backwardSpec, hpos, hne]
    · by_cases hf : fwd.isEmpty
      · have hfe : fwd = [] := List.isEmpty_iff.mp hf
        subst hfe
        have hscan : locked_scan (b :: rest) (([] : List Block), []) =
            locked_scan rest ([], []) := by
          simp [locked_scan, hpos]
        rw [hscan, ih []]
        simp [forwardSpec, backwardSpec, hpos]
      · have hf2 : fwd.isEmpty = false := Bool.not_eq_true _ |>.mp hf
        have hscan :
            locked_scan (b :: rest) (fwd, []) = locked_scan rest (fwd, [b]) := by
          simp [locked_scan, hf2, hpos]
        rw [hscan, locked_scan_saturated rest fwd [b] hf2 (by simp)]
        simp [forwardSpec, backwardSpec, hpos, hf2, backwardSpec_true_eq_filter]

lemma backwardSpec_all_pos (l : List Block) (h : ∀ b ∈ l, b.direction.positive = true) :
    ∀ sp, backwardSpec sp l = [] := by
  induction l with
  | nil => intro sp; rfl
  | cons b bs ih =>
    intro sp
    have hb := h b (List.mem_cons_self b bs)
    simp only [backwardSpec, hb, if_true]
    exact ih (fun x hx => h x (List.mem_cons_of_mem b hx)) true

lemma forwardSpec_all_neg (l : List Block) (h : ∀ b ∈ l, b.direction.positive = false) :
    forwardSpec false l = [] := by
  induction l with
  | nil => rfl
  | cons b bs ih =>
    have hb := h b (List.mem_cons_self b bs)
    simp only [forwardSpec, hb, Bool.false_eq_true, if_false]
    exact ih (fun x hx => h x (List.mem_cons_of_mem b hx))

lemma backwardSpec_false_append_neg (l1 l2 : List Block)
    (h : ∀ b ∈ l1, b.direction.positive = false) :
    backwardSpec false (l1 ++ l2) = backwardSpec false l2 := by
  induction l1 with
  | nil => rfl
  | cons b bs ih =>
    have hb := h b (List.mem_cons_self b bs)
    simp only [List.cons_append, backwardSpec, hb, Bool.false_eq_true, if_false]
    exact ih (fun x hx => h x (List.mem_cons_of_mem b hx))

def c2neg1 : Block := ⟨⟨Axis.X, false⟩, ⟨0, 0, 0⟩, ⟨1, 1, 1⟩⟩
def c2pos : Block := ⟨⟨Axis.X, true⟩, ⟨1, 0, 0⟩, ⟨2, 1, 1⟩⟩
def c2neg2 : Block := ⟨⟨Axis.X, false⟩, ⟨2, 0, 0⟩, ⟨3, 1, 1⟩⟩

/-- Claim C2 counterexample: on the line [−, +, −] the code removes the
trailing [+, −] pair, while the claim's forward list (positives before any
negative has been seen) is empty, so the claim predicts the empty set. -/
theorem c2_counterexample :
    locked_blocks_to_remove [c2neg1, c2pos, c2neg2] = [c2pos, c2neg2] ∧
    lockedClaimResult [c2neg1, c2pos, c2neg2] = [] ∧
    locked_blocks_to_remove [c2neg1, c2pos, c2neg2] ≠
      lockedClaimResult [c2neg1, c2pos, c2neg2] := by
  refine ⟨by decide, by decide, by decide⟩

/-- Claim C2, amended: the forward list accumulates positive blocks until the
first negative block that follows some positive block (a leading run of
negatives does not stop it), the backward list accumulates negative blocks
occurring after at least one positive block, and the result is forward ++
backward when both are non-empty and empty otherwise; lines with only
positive, only negative, or all negatives before all positives give the
empty set, and the line [+, −] yields both blocks in that order. -/
theorem c2_locked_blocks_amended :
    (∀ blocks, locked_blocks_to_remove blocks = lockedSpecAmended blocks) ∧
    locked_blocks_to_remove [c2pos, c2neg2] = [c2pos, c2neg2] ∧
    (∀ l, (∀ b ∈ l, b.direction.positive = true) → locked_blocks_to_remove l = []) ∧
    (∀ l, (∀ b ∈ l, b.direction.positive = false) → locked_blocks_to_remove l = []) ∧
    (∀ l1 l2, (∀ b ∈ l1, b.direction.positive = false) →
      (∀ b ∈ l2, b.direction.positive = true) →
      locked_blocks_to_remove (l1 ++ l2) = []) := by
  have hmain : ∀ blocks, locked_blocks_to_remove blocks = lockedSpecAmended blocks := by
    intro blocks
    unfold locked_blocks_to_remove lockedSpecAmended
    rw [locked_scan_spec blocks []]
    simp
  refine ⟨hmain, by decide, ?_, ?_, ?_⟩
  · intro l h
    rw [hmain, lockedSpecAmended, backwardSpec_all_pos l h false]
    simp
  · intro l h
    rw [hmain, lockedSpecAmended, forwardSpec_all_neg l h]
    simp
  · intro l1 l2 h1 h2
    rw [hmain, lockedSpecAmended, backwardSpec_false_append_neg l1 l2 h1,
      backwardSpec_all_pos l2 h2 false]
    simp

/-- Claim C2 witness: the amended scan evaluated on concrete lines, including
an all-positive line, an all-negative line and a negatives-then-positives
line, all of which report nothing. -/
theorem c2_witness :
    locked_blocks_to_remove [c2neg1, c2pos, c2neg2] =
      lockedSpecAmended [c2neg1, c2pos, c2neg2] ∧
    (∀ b ∈ [c2pos], b.direction.positive = true) ∧
    locked_blocks_to_remove [c2pos] = [] ∧
    locked_blocks_to_remove [c2neg1, c2neg2] = [] ∧
    locked_blocks_to_remove ([c2neg1] ++ [c2pos]) = [] :=
  ⟨c2_locked_blocks_amended.1 [c2neg1, c2pos, c2neg2], by decide,
   c2_locked_blocks_amended.2.2.1 [c2pos] (by decide),
   c2_locked_blocks_amended.2.2.2.1 [c2neg1, c2neg2] (by decide),
   c2_locked_blocks_amended.2.2.2.2 [c2neg1] [c2pos] (by decide) (by decide)⟩

/-- The explicit random oracle threaded through generation: an infinite
stream of naturals, one consumed per draw. -/
def Rng : Type := Nat → Nat

def rngTail (rng : Rng) : Rng := fun n => rng (n + 1)

def drawNat (rng : Rng) : Nat × Rng := (rng 0, rngTail rng)

/-- rand's random_bool(0.5): one draw decides a coin flip. -/
def randomBool (rng : Rng) : Bool × Rng :=
  let d := drawNat rng
  (d.1 % 2 == 0, d.2)

/-- rand's random_range(lo..=hi): an element of a nonempty inclusive integer
range; sampling an empty range is a panic, modelled as none. -/
def randomRangeInclusive (lo hi : Int) (rng : Rng) : Option (Int × Rng) :=
  if lo ≤ hi then
    let d := drawNat rng
    some (lo + ((d.1 % (hi - lo + 1).toNat : Nat) : Int), d.2)
  else none

/-- slice choose: picks an element of a non-empty list at a random index;
the empty slice gives none. -/
def chooseList {α : Type} (l : List α) (rng : Rng) : Option (α × Rng) :=
  match l with
  | [] => none
  | a :: rest =>
      let d := drawNat rng
      some ((a :: rest).get ⟨d.1 % (a :: rest).length, Nat.mod_lt d.1 (Nat.succ_pos _)⟩, d.2)

/-- random_direction: a random axis index in 0..3, then a coin flip for the
polarity. -/
def random_direction (rng : Rng) : Direction × Rng :=
  let d := drawNat rng
  let axis := if d.1 % 3 == 0 then Axis.X else if d.1 % 3 == 1 then Axis.Y else Axis.Z
  let p := randomBool d.2
  (⟨axis, p.1⟩, p.2)

/-- A generation-time candidate cell: an optional direction plus its box. -/
structure GBlock where
  direction : Option Direction
  min : IVec3
  max : IVec3
  deriving DecidableEq, Repr

inductive Tree where
  | Leaf : GBlock → Tree
  | Node : Tree → Tree → Tree

/-- In-order leaf collection with a push accumulator, as in the source. -/
def flatten_tree_rec : Tree → List GBlock → List GBlock
  | Tree.Leaf x, acc => acc ++ [x]
  | Tree.Node l r, acc => flatten_tree_rec r (flatten_tree_rec l acc)

def flatten_tree (t : Tree) : List GBlock := flatten_tree_rec t []

/-- A box of the generation volume still to be subdivided: one closed-open
integer range per axis. -/
structure Seed where
  x : Int × Int
  y : Int × Int
  z : Int × Int
  deriving DecidableEq, Repr

def Seed.split (s : Seed) (axis : Axis) (mid : Int) : Seed × Seed :=
  match axis with
  | Axis.X => (⟨(s.x.1, mid), s.y, s.z⟩, ⟨(mid, s.x.2), s.y, s.z⟩)
  | Axis.Y => (⟨s.x, (s.y.1, mid), s.z⟩, ⟨s.x, (mid, s.y.2), s.z⟩)
  | Axis.Z => (⟨s.x, s.y, (s.z.1, mid)⟩, ⟨s.x, s.y, (mid, s.z.2)⟩)

def Seed.to_min_max (s : Seed) : IVec3 × IVec3 :=
  (⟨s.x.1, s.y.1, s.z.1⟩, ⟨s.x.2, s.y.2, s.z.2⟩)

def Seed.get_field (s : Seed) (axis : Axis) : Int × Int :=
  match axis with
  | Axis.X => s.x
  | Axis.Y => s.y
  | Axis.Z => s.z

inductive Width where
  | One
  | Two
  | More
  deriving DecidableEq, Repr

/-- The per-axis width classifier; widths ≤ 0 are a panic, modelled none. -/
def width (x : Int) : Option Width :=
  if x = 1 then some Width.One
  else if x = 2 then some Width.Two
  else if 2 ≤ x then some Width.More
  else none

def gblock_to_block (gb : GBlock) : Option Block :=
  gb.direction.map (fun direction => ⟨direction, gb.min, gb.max⟩)

def gblocks_to_blocks (gb : List GBlock) : List Block :=
  gb.filterMap gblock_to_block

/-- The termination measure of the tree generator: the summed axis widths. -/
def sumWidths (s : Seed) : Nat :=
  (s.x.2 - s.x.1).toNat + (s.y.2 - s.y.1).toNat + (s.z.2 - s.z.1).toNat

lemma width_pos {x : Int} {w : Width} (h : width x = some w) : 1 ≤ x := by
  unfold width at h
  split_ifs at h <;> omega

lemma width_eq_one {x : Int} (h : width x = some Width.One) : x = 1 := by
  unfold width at h
  split_ifs at h <;> simp_all

lemma width_eq_two {x : Int} (h : width x = some Width.Two) : x = 2 := by
  unfold width at h
  split_ifs at h <;> simp_all

lemma width_ne_one {x : Int} {w : Width} (h : width x = some w) (hne : w ≠ Width.One) :
    2 ≤ x := by
  unfold width at h
  split_ifs at h <;> first | omega | simp_all

lemma randomRangeInclusive_bounds {lo hi m : Int} {rng r2 : Rng}
    (h : randomRangeInclusive lo hi rng = some (m, r2)) : lo ≤ m ∧ m ≤ hi := by
  unfold randomRangeInclusive at h
  split_ifs at h with hle
  injection h with h2
  have hm : lo + ((rng 0 % (hi - lo + 1).toNat : Nat) : Int) = m :=
    congrArg Prod.fst h2
  have hmod : (rng 0 % (hi - lo + 1).toNat) < (hi - lo + 1).toNat :=
    Nat.mod_lt _ (by omega)
  omega

lemma chooseList_mem {α : Type} {l : List α} {rng : Rng} {a : α} {r2 : Rng}
    (h : chooseList l rng = some (a, r2)) : a ∈ l := by
  cases l with
  | nil => exact Option.noConfusion h
  | cons x rest =>
    unfold chooseList at h
    injection h with h2
    have := congrArg Prod.fst h2
    simp only at this
    rw [← this]
    exact List.get_mem _ _ _

lemma head?_filter_mem {α : Type} {p : α → Bool} {l : List α} {a : α}
    (h : (l.filter p).head? = some a) : a ∈ l ∧ p a = true := by
  have hm : a ∈ l.filter p := by
    cases hl : l.filter p with
    | nil => rw [hl] at h; exact Option.noConfusion h
    | cons x xs =>
      rw [hl] at h
      injection h with h2
      subst h2
      exact List.mem_cons_self _ _
  exact List.mem_filter.mp hm

lemma zip_all_mem {w1 w2 w3 : Width} {pr : Width × Axis}
    (h : pr ∈ [w1, w2, w3].zip Axis.ALL) :
    pr = (w1, Axis.X) ∨ pr = (w2, Axis.Y) ∨ pr = (w3, Axis.Z) := by
  simp [Axis.ALL, List.zip] at h
  tauto

lemma select_two_field (seed : Seed) {w1 w2 w3 : Width} {pr : Width × Axis}
    (hw1 : width (seed.x.2 - seed.x.1) = some w1)
    (hw2 : width (seed.y.2 - seed.y.1) = some w2)
    (hw3 : width (seed.z.2 - seed.z.1) = some w3)
    (hsel : (([w1, w2, w3].zip Axis.ALL).filter (fun p => p.1 == Width.Two)).head? = some pr) :
    (seed.get_field pr.2).2 - (seed.get_field pr.2).1 = 2 := by
  obtain ⟨hmem, hp⟩ := head?_filter_mem hsel
  rcases zip_all_mem hmem with rfl | rfl | rfl <;>
    simp only [beq_iff_eq] at hp <;>
    subst hp <;>
    simp only [Seed.get_field] <;>
    first
      | exact width_eq_two hw1
      | exact width_eq_two hw2
      | exact width_eq_two hw3

lemma select_ne_one_field (seed : Seed) {w1 w2 w3 : Width} {pr : Width × Axis}
    (hw1 : width (seed.x.2 - seed.x.1) = some w1)
    (hw2 : width (seed.y.2 - seed.y.1) = some w2)
    (hw3 : width (seed.z.2 - seed.z.1) = some w3)
    (hsel : (([w1, w2, w3].zip Axis.ALL).filter
        (fun p => !(p.1 == Width.One))).head? = some pr) :
    2 ≤ (seed.get_field pr.2).2 - (seed.get_field pr.2).1 := by
  obtain ⟨hmem, hp⟩ := head?_filter_mem hsel
  rcases zip_all_mem hmem with rfl | rfl | rfl <;>
    simp only [Bool.not_eq_true', beq_eq_false_iff_ne, ne_eq] at hp <;>
    simp only [Seed.get_field] <;>
    first
      | exact width_ne_one hw1 hp
      | exact width_ne_one hw2 hp
      | exact width_ne_one hw3 hp

lemma choose_axes_field (seed : Seed) {w1 w2 w3 : Width} {ar : Axis × Rng} {rng : Rng}
    (hw1 : width (seed.x.2 - seed.x.1) = some w1)
    (hw2 : width (seed.y.2 - seed.y.1) = some w2)
    (hw3 : width (seed.z.2 - seed.z.1) = some w3)
    (hch : chooseList ((([w1, w2, w3].zip Axis.ALL).filter
        (fun p => !(p.1 == Width.One))).map (fun p => p.2)) rng = some ar) :
    2 ≤ (seed.get_field ar.1).2 - (seed.get_field ar.1).1 := by
  have hmem := chooseList_mem hch
  obtain ⟨pr, hprmem, hpr2⟩ := List.mem_map.mp hmem
  obtain ⟨hzip, hp⟩ := List.mem_filter.mp hprmem
  rcases zip_all_mem hzip with rfl | rfl | rfl <;>
    simp only [Bool.not_eq_true', beq_eq_false_iff_ne, ne_eq] at hp <;>
    rw [← hpr2] <;>
    simp only [Seed.get_field] <;>
    first
      | exact width_ne_one hw1 hp
      | exact width_ne_one hw2 hp
      | exact width_ne_one hw3 hp

lemma count_one_zero {w1 w2 w3 : Width}
    (h : List.countP (fun w => w == Width.One) [w1, w2, w3] = 0) :
    w1 ≠ Width.One ∧ w2 ≠ Width.One ∧ w3 ≠ Width.One := by
  cases w1 <;> cases w2 <;> cases w3 <;> simp_all [List.countP_cons]

lemma choose_all_field (seed : Seed) {w1 w2 w3 : Width} {ar : Axis × Rng}
    (hw1 : width (seed.x.2 - seed.x.1) = some w1)
    (hw2 : width (seed.y.2 - seed.y.1) = some w2)
    (hw3 : width (seed.z.2 - seed.z.1) = some w3)
    (h1 : w1 ≠ Width.One) (h2 : w2 ≠ Width.One) (h3 : w3 ≠ Width.One) :
    2 ≤ (seed.get_field ar.1).2 - (seed.get_field ar.1).1 := by
  cases har : ar.1 <;> simp only [Seed.get_field] <;>
    first
      | exact width_ne_one hw1 h1
      | exact width_ne_one hw2 h2
      | exact width_ne_one hw3 h3

lemma split_sumWidths_lt (seed : Seed) (axis : Axis) (mid : Int)
    (hx : 1 ≤ seed.x.2 - seed.x.1) (hy : 1 ≤ seed.y.2 - seed.y.1)
    (hz : 1 ≤ seed.z.2 - seed.z.1)
    (hlo : (seed.get_field axis).1 < mid) (hhi : mid < (seed.get_field axis).2) :
    sumWidths (seed.split axis mid).1 < sumWidths seed ∧
    sumWidths (seed.split axis mid).2 < sumWidths seed := by
  cases axis <;>
    simp only [Seed.split, Seed.get_field, sumWidths] at * <;> omega

/-- The recursive subdivision generator. Panics of the source (invalid
widths, the unreachable (ones, twos) combinations, unwraps of empty
selections, sampling an empty range) are modelled as none. -/
def gen_tree (rng : Rng) (seed : Seed) : Option (Tree × Rng) :=
  match hw1 : width (seed.x.2 - seed.x.1), hw2 : width (seed.y.2 - seed.y.1),
      hw3 : width (seed.z.2 - seed.z.1) with
  | some w1, some w2, some w3 =>
    let widths : List Width := [w1, w2, w3]
    let mm := seed.to_min_max
    match List.countP (fun w => w == Width.One) widths,
        List.countP (fun w => w == Width.Two) widths with
    | 3, 0 =>
        let fr := randomBool rng
        if fr.1 then
          let dr := random_direction fr.2
          some (Tree.Leaf ⟨some dr.1, mm.1, mm.2⟩, dr.2)
        else
          some (Tree.Leaf ⟨none, mm.1, mm.2⟩, fr.2)
    | 2, 1 =>
        match hsel : ((widths.zip Axis.ALL).filter (fun p => p.1 == Width.Two)).head? with
        | none => none
        | some pr =>
            let sr := randomBool rng
            if sr.1 then
              let mid := (seed.get_field pr.2).1 + 1
              match gen_tree sr.2 (seed.split pr.2 mid).1 with
              | none => none
              | some tl =>
                  match gen_tree tl.2 (seed.split pr.2 mid).2 with
                  | none => none
                  | some tr => some (Tree.Node tl.1 tr.1, tr.2)
            else
              let fr := randomBool sr.2
              if fr.1 then
                let dr := random_direction fr.2
                some (Tree.Leaf ⟨some dr.1, mm.1, mm.2⟩, dr.2)
              else
                some (Tree.Leaf ⟨none, mm.1, mm.2⟩, fr.2)
    | 2, _ =>
        match ((widths.zip Axis.ALL).filter (fun p => !(p.1 == Width.One))).head? with
        | none => none
        | some pr =>
            match hmid : randomRangeInclusive ((seed.get_field pr.2).1 + 1)
                ((seed.get_field pr.2).2 - 1) rng with
            | none => none
            | some mr =>
                match gen_tree mr.2 (seed.split pr.2 mr.1).1 with
                | none => none
                | some tl =>
                    match gen_tree tl.2 (seed.split pr.2 mr.1).2 with
                    | none => none
                    | some tr => some (Tree.Node tl.1 tr.1, tr.2)
    | 1, _ =>
        match chooseList (((widths.zip Axis.ALL).filter
            (fun p => !(p.1 == Width.One))).map (fun p => p.2)) rng with
        | none => none
        | some ar =>
            match hmid : randomRangeInclusive ((seed.get_field ar.1).1 + 1)
                ((seed.get_field ar.1).2 - 1) ar.2 with
            | none => none
            | some mr =>
                match gen_tree mr.2 (seed.split ar.1 mr.1).1 with
                | none => none
                | some tl =>
                    match gen_tree tl.2 (seed.split ar.1 mr.1).2 with
                    | none => none
                    | some tr => some (Tree.Node tl.1 tr.1, tr.2)
    | 0, _ =>
        match chooseList Axis.ALL rng with
        | none => none
        | some ar =>
            match hmid : randomRangeInclusive ((seed.get_field ar.1).1 + 1)
                ((seed.get_field ar.1).2 - 1) ar.2 with
            | none => none
            | some mr =>
                match gen_tree mr.2 (seed.split ar.1 mr.1).1 with
                | none => none
                | some tl =>
                    match gen_tree tl.2 (seed.split ar.1 mr.1).2 with
                    | none => none
                    | some tr => some (Tree.Node tl.1 tr.1, tr.2)
    | _, _ => none
  | _, _, _ => none
termination_by sumWidths seed
decreasing_by
  all_goals
    first
      | (have h2f := select_two_field seed hw1 hw2 hw3 hsel
         exact (split_sumWidths_lt seed pr.2 ((seed.get_field pr.2).1 + 1)
            (width_pos hw1) (width_pos hw2) (width_pos hw3) (by omega) (by omega)).1)
      | (have h2f := select_two_field seed hw1 hw2 hw3 hsel
         exact (split_sumWidths_lt seed pr.2 ((seed.get_field pr.2).1 + 1)
            (width_pos hw1) (width_pos hw2) (width_pos hw3) (by omega) (by omega)).2)
      | (have hb := randomRangeInclusive_bounds hmid
         exact (split_sumWidths_lt seed pr.2 mr.1
            (width_pos hw1) (width_pos hw2) (width_pos hw3) (by omega) (by omega)).1)
      | (have hb := randomRangeInclusive_bounds hmid
         exact (split_sumWidths_lt seed pr.2 mr.1
            (width_pos hw1) (width_pos hw2) (width_pos hw3) (by omega) (by omega)).2)
      | (have hb := randomRangeInclusive_bounds hmid
         exact (split_sumWidths_lt seed ar.1 mr.1
            (width_pos hw1) (width_pos hw2) (width_pos hw3) (by omega) (by omega)).1)
      | (have hb := randomRangeInclusive_bounds hmid
         exact (split_sumWidths_lt seed ar.1 mr.1
            (width_pos hw1) (width_pos hw2) (width_pos hw3) (by omega) (by omega)).2)

/-- Every axis range of the seed is non-degenerate. -/
def posWidths (s : Seed) : Prop :=
  s.x.1 < s.x.2 ∧ s.y.1 < s.y.2 ∧ s.z.1 < s.z.2

/-- The unit cell with corner p lies inside the closed-open box [mn, mx). -/
def cellInBox (p mn mx : IVec3) : Prop :=
  mn.x ≤ p.x ∧ p.x < mx.x ∧ mn.y ≤ p.y ∧ p.y < mx.y ∧ mn.z ≤ p.z ∧ p.z < mx.z

instance cellInBox.dec (p mn mx : IVec3) : Decidable (cellInBox p mn mx) := by
  unfold cellInBox
  infer_instance

def cellInGBlock (p : IVec3) (g : GBlock) : Bool := decide (cellInBox p g.min g.max)

/-- The unit cell with corner p lies inside the seed box. -/
def cellInSeed (p : IVec3) (s : Seed) : Prop :=
  s.x.1 ≤ p.x ∧ p.x < s.x.2 ∧ s.y.1 ≤ p.y ∧ p.y < s.y.2 ∧ s.z.1 ≤ p.z ∧ p.z < s.z.2

instance cellInSeed.dec (p : IVec3) (s : Seed) : Decidable (cellInSeed p s) := by
  unfold cellInSeed
  infer_instance

/-- A well-shaped leaf: a non-degenerate box whose extent is a unit cube or a
single-axis domino. -/
def goodGBlock (g : GBlock) : Prop :=
  (g.min.x < g.max.x ∧ g.min.y < g.max.y ∧ g.min.z < g.max.z) ∧
  (g.max.sub g.min = ⟨1, 1, 1⟩ ∨ g.max.sub g.min = ⟨2, 1, 1⟩ ∨
   g.max.sub g.min = ⟨1, 2, 1⟩ ∨ g.max.sub g.min = ⟨1, 1, 2⟩)

/-- The two generation invariants: every collected leaf is well shaped, and
the leaves tile the seed volume with every cell covered exactly once. -/
def genOk (seed : Seed) (res : Tree × Rng) : Prop :=
  (∀ g ∈ flatten_tree res.1, goodGBlock g) ∧
  (∀ p : IVec3, (flatten_tree res.1).countP (cellInGBlock p) =
    if cellInSeed p seed then 1 else 0)

lemma flatten_tree_rec_eq (t : Tree) :
    ∀ acc, flatten_tree_rec t acc = acc ++ flatten_tree t := by
  induction t with
  | Leaf g => intro acc; simp [flatten_tree_rec, flatten_tree]
  | Node l r ihl ihr =>
    intro acc
    have h1 : flatten_tree_rec (Tree.Node l r) acc = (acc ++ flatten_tree l) ++ flatten_tree r := by
      show flatten_tree_rec r (flatten_tree_rec l acc) = _
      rw [ihr, ihl]
    have h2 : flatten_tree (Tree.Node l r) = flatten_tree l ++ flatten_tree r := by
      show flatten_tree_rec r (flatten_tree_rec l []) = _
      rw [ihr, ihl]
      simp
    rw [h1, h2, List.append_assoc]

lemma flatten_node (l r : Tree) :
    flatten_tree (Tree.Node l r) = flatten_tree l ++ flatten_tree r := by
  show flatten_tree_rec r (flatten_tree_rec l []) = _
  rw [flatten_tree_rec_eq, flatten_tree_rec_eq l]
  simp

lemma width_more {x : Int} (h : width x = some Width.More) : 3 ≤ x := by
  unfold width at h
  split_ifs at h <;> first | omega | simp_all

lemma randomRangeInclusive_none {lo hi : Int} {rng : Rng}
    (h : randomRangeInclusive lo hi rng = none) : hi < lo := by
  unfold randomRangeInclusive at h
  split_ifs at h with hle
  omega

lemma split_posWidths (seed : Seed) (axis : Axis) (mid : Int) (hpos : posWidths seed)
    (hlo : (seed.get_field axis).1 < mid) (hhi : mid < (seed.get_field axis).2) :
    posWidths (seed.split axis mid).1 ∧ posWidths (seed.split axis mid).2 := by
  cases axis <;> unfold posWidths Seed.split Seed.get_field at * <;> simp_all

lemma split_cell_partition (seed : Seed) (axis : Axis) (mid : Int) (p : IVec3)
    (hlo : (seed.get_field axis).1 ≤ mid) (hhi : mid ≤ (seed.get_field axis).2) :
    (if cellInSeed p (seed.split axis mid).1 then 1 else 0) +
      (if cellInSeed p (seed.split axis mid).2 then 1 else 0) =
    (if cellInSeed p seed then (1 : Nat) else 0) := by
  cases axis <;> simp only [cellInSeed, Seed.split, Seed.get_field] at * <;>
    split_ifs <;> omega

lemma leaf_genOk (seed : Seed) (d : Option Direction) (r : Rng)
    (hshape :
      (seed.x.2 - seed.x.1 = 1 ∧ seed.y.2 - seed.y.1 = 1 ∧ seed.z.2 - seed.z.1 = 1) ∨
      (seed.x.2 - seed.x.1 = 2 ∧ seed.y.2 - seed.y.1 = 1 ∧ seed.z.2 - seed.z.1 = 1) ∨
      (seed.x.2 - seed.x.1 = 1 ∧ seed.y.2 - seed.y.1 = 2 ∧ seed.z.2 - seed.z.1 = 1) ∨
      (seed.x.2 - seed.x.1 = 1 ∧ seed.y.2 - seed.y.1 = 1 ∧ seed.z.2 - seed.z.1 = 2)) :
    genOk seed (Tree.Leaf ⟨d, seed.to_min_max.1, seed.to_min_max.2⟩, r) := by
  constructor
  · intro g hg
    simp only [flatten_tree, flatten_tree_rec, List.nil_append, List.mem_singleton] at hg
    subst hg
    unfold goodGBlock IVec3.sub Seed.to_min_max
    simp only [IVec3.mk.injEq]
    constructor
    · omega
    · omega
  · intro p
    simp only [flatten_tree, flatten_tree_rec, List.nil_append, List.countP_cons,
      List.countP_nil, Nat.zero_add]
    have hiff : cellInGBlock p ⟨d, seed.to_min_max.1, seed.to_min_max.2⟩ = true ↔
        cellInSeed p seed := by
      unfold cellInGBlock cellInBox cellInSeed Seed.to_min_max
      simp
    by_cases hc : cellInSeed p seed
    · rw [if_pos (hiff.mpr hc), if_pos hc]
    · rw [if_neg (fun hcon => hc (hiff.mp hcon)), if_neg hc]

lemma node_genOk (seed : Seed) (axis : Axis) (mid : Int) (res1 res2 : Tree × Rng) (r : Rng)
    (hlo : (seed.get_field axis).1 < mid) (hhi : mid < (seed.get_field axis).2)
    (h1 : genOk (seed.split axis mid).1 res1) (h2 : genOk (seed.split axis mid).2 res2) :
    genOk seed (Tree.Node res1.1 res2.1, r) := by
  constructor
  · intro g hg
    rw [flatten_node] at hg
    rcases List.mem_append.mp hg with h | h
    · exact h1.1 g h
    · exact h2.1 g h
  · intro p
    rw [flatten_node, List.countP_append, h1.2 p, h2.2 p]
    exact split_cell_partition seed axis mid p (by omega) (by omega)

lemma width_isSome (x : Int) (h : 1 ≤ x) : ∃ w, width x = some w := by
  unfold width
  split_ifs <;> first | exact ⟨_, rfl⟩ | omega

lemma chooseList_two {α : Type} (a b : α) (rng : Rng) :
    chooseList [a, b] rng = some ((if rng 0 % 2 = 0 then a else b), rngTail rng) := by
  unfold chooseList drawNat
  simp only []
  have h : rng 0 % 2 = 0 ∨ rng 0 % 2 = 1 := by omega
  rcases h with h | h <;> simp [h, List.get]

lemma chooseList_three {α : Type} (a b c : α) (rng : Rng) :
    chooseList [a, b, c] rng =
      some ((if rng 0 % 3 = 0 then a else if rng 0 % 3 = 1 then b else c), rngTail rng) := by
  unfold chooseList drawNat
  simp only []
  have h : rng 0 % 3 = 0 ∨ rng 0 % 3 = 1 ∨ rng 0 % 3 = 2 := by omega
  rcases h with h | h | h <;> simp [h, List.get]

lemma countP_one_pos1 {w2 w3 : Width} (h2 : w2 ≠ Width.One) (h3 : w3 ≠ Width.One) :
    List.countP (fun w => w == Width.One) [Width.One, w2, w3] = 1 := by
  cases w2 <;> cases w3 <;> first | rfl | simp_all

lemma countP_one_pos2 {w1 w3 : Width} (h1 : w1 ≠ Width.One) (h3 : w3 ≠ Width.One) :
    List.countP (fun w => w == Width.One) [w1, Width.One, w3] = 1 := by
  cases w1 <;> cases w3 <;> first | rfl | simp_all

lemma countP_one_pos3 {w1 w2 : Width} (h1 : w1 ≠ Width.One) (h2 : w2 ≠ Width.One) :
    List.countP (fun w => w == Width.One) [w1, w2, Width.One] = 1 := by
  cases w1 <;> cases w2 <;> first | rfl | simp_all

lemma countP_one_zero3 {w1 w2 w3 : Width} (h1 : w1 ≠ Width.One) (h2 : w2 ≠ Width.One)
    (h3 : w3 ≠ Width.One) :
    List.countP (fun w => w == Width.One) [w1, w2, w3] = 0 := by
  cases w1 <;> cases w2 <;> cases w3 <;> first | rfl | simp_all

lemma axes_filter_pos1 {w2 w3 : Width} (h2 : w2 ≠ Width.One) (h3 : w3 ≠ Width.One) :
    ((([Width.One, w2, w3]).zip Axis.ALL).filter (fun p => !(p.1 == Width.One))).map
      (fun p => p.2) = [Axis.Y, Axis.Z] := by
  cases w2 <;> cases w3 <;> first | rfl | simp_all

lemma axes_filter_pos2 {w1 w3 : Width} (h1 : w1 ≠ Width.One) (h3 : w3 ≠ Width.One) :
    ((([w1, Width.One, w3]).zip Axis.ALL).filter (fun p => !(p.1 == Width.One))).map
      (fun p => p.2) = [Axis.X, Axis.Z] := by
  cases w1 <;> cases w3 <;> first | rfl | simp_all

lemma axes_filter_pos3 {w1 w2 : Width} (h1 : w1 ≠ Width.One) (h2 : w2 ≠ Width.One) :
    ((([w1, w2, Width.One]).zip Axis.ALL).filter (fun p => !(p.1 == Width.One))).map
      (fun p => p.2) = [Axis.X, Axis.Y] := by
  cases w1 <;> cases w2 <;> first | rfl | simp_all

lemma rec_core (n : Nat)
    (ih : ∀ (s2 : Seed) (r2 : Rng), sumWidths s2 ≤ n → posWidths s2 →
      ∃ res : Tree × Rng, gen_tree r2 s2 = some res ∧ genOk s2 res)
    (seed : Seed) (axis : Axis) (mid : Int) (R : Rng)
    (hsum : sumWidths seed ≤ n + 1) (hpos : posWidths seed)
    (hlo : (seed.get_field axis).1 < mid) (hhi : mid < (seed.get_field axis).2)
    (hx : 1 ≤ seed.x.2 - seed.x.1) (hy : 1 ≤ seed.y.2 - seed.y.1)
    (hz : 1 ≤ seed.z.2 - seed.z.1) :
    ∃ res1 res2 : Tree × Rng,
      gen_tree R (seed.split axis mid).1 = some res1 ∧
      gen_tree res1.2 (seed.split axis mid).2 = some res2 ∧
      genOk seed (Tree.Node res1.1 res2.1, res2.2) := by
  have hsplit := split_sumWidths_lt seed axis mid hx hy hz hlo hhi
  have hposs := split_posWidths seed axis mid hpos hlo hhi
  obtain ⟨res1, hres1, hgok1⟩ := ih _ R (by omega) hposs.1
  obtain ⟨res2, hres2, hgok2⟩ := ih _ res1.2 (by omega) hposs.2
  exact ⟨res1, res2, hres1, hres2,
    node_genOk seed axis mid res1 res2 res2.2 hlo hhi hgok1 hgok2⟩

/-- Full correctness of the generator on non-degenerate seeds: it never hits
a panic branch, every collected leaf is well shaped, and the leaves tile the
seed volume exactly. -/
lemma gen_tree_master :
    ∀ (n : Nat) (seed : Seed) (rng : Rng), sumWidths seed ≤ n → posWidths seed →
      ∃ res : Tree × Rng, gen_tree rng seed = some res ∧ genOk seed res := by
  intro n
  induction n with
  | zero =>
    intro seed rng hsum hpos
    exfalso
    unfold sumWidths at hsum
    unfold posWidths at hpos
    omega
  | succ n ih =>
    intro seed rng hsum hpos
    have hpx : seed.x.1 < seed.x.2 := hpos.1
    have hpy : seed.y.1 < seed.y.2 := hpos.2.1
    have hpz : seed.z.1 < seed.z.2 := hpos.2.2
    obtain ⟨w1, hw1⟩ := width_isSome (seed.x.2 - seed.x.1) (by omega)
    obtain ⟨w2, hw2⟩ := width_isSome (seed.y.2 - seed.y.1) (by omega)
    obtain ⟨w3, hw3⟩ := width_isSome (seed.z.2 - seed.z.1) (by omega)
    cases w1 <;> cases w2 <;> cases w3
    case One.One.One =>
      have e1 := width_eq_one hw1
      have e2 := width_eq_one hw2
      have e3 := width_eq_one hw3
      rw [gen_tree.eq_def, hw1, hw2, hw3]
      simp only []
      rw [show List.countP (fun w => w == Width.One)
            [Width.One, Width.One, Width.One] = 3 from rfl,
          show List.countP (fun w => w == Width.Two)
            [Width.One, Width.One, Width.One] = 0 from rfl]
      simp only []
      cases hfr : (randomBool rng).1
      case true =>
        rw [if_pos rfl]
        exact ⟨_, rfl, leaf_genOk seed _ _ (by omega)⟩
      case false =>
        rw [if_neg Bool.false_ne_true]
        exact ⟨_, rfl, leaf_genOk seed _ _ (by omega)⟩
    case One.One.Two =>
      have e1 := width_eq_one hw1
      have e2 := width_eq_one hw2
      have e3 := width_eq_two hw3
      rw [gen_tree.eq_def, hw1, hw2, hw3]
      simp only []
      rw [show List.countP (fun w => w == Width.One)
            [Width.One, Width.One, Width.Two] = 2 from rfl,
          show List.countP (fun w => w == Width.Two)
            [Width.One, Width.One, Width.Two] = 1 from rfl]
      simp only []
      rw [show ((([Width.One, Width.One, Width.Two]).zip Axis.ALL).filter
            (fun p => p.1 == Width.Two)).head? = some (Width.Two, Axis.Z) from rfl]
      simp only []
      have hlo : (seed.get_field Axis.Z).1 < (seed.get_field Axis.Z).1 + 1 := by omega
      have hhi : (seed.get_field Axis.Z).1 + 1 < (seed.get_field Axis.Z).2 := by
        simp only [Seed.get_field]
        omega
      cases hsr : (randomBool rng).1
      case true =>
        rw [if_pos rfl]
        obtain ⟨res1, res2, hres1, hres2, hgok⟩ :=
          rec_core n ih seed Axis.Z ((seed.get_field Axis.Z).1 + 1) ((randomBool rng).2)
            hsum hpos hlo hhi (by omega) (by omega) (by omega)
        rw [hres1]
        try simp only []
        rw [hres2]
        try simp only []
        exact ⟨_, rfl, hgok⟩
      case false =>
        rw [if_neg Bool.false_ne_true]
        cases hfr : (randomBool (randomBool rng).2).1
        case true =>
          rw [if_pos rfl]
          exact ⟨_, rfl, leaf_genOk seed _ _ (by omega)⟩
        case false =>
          rw [if_neg Bool.false_ne_true]
          exact ⟨_, rfl, leaf_genOk seed _ _ (by omega)⟩
    case One.One.More =>
      have e1 := width_eq_one hw1
      have e2 := width_eq_one hw2
      have e3 := width_more hw3
      rw [gen_tree.eq_def, hw1, hw2, hw3]
      simp only []
      rw [show List.countP (fun w => w == Width.One)
            [Width.One, Width.One, Width.More] = 2 from rfl,
          show List.countP (fun w => w == Width.Two)
            [Width.One, Width.One, Width.More] = 0 from rfl]
      simp only []
      rw [show ((([Width.One, Width.One, Width.More]).zip Axis.ALL).filter
            (fun p => !(p.1 == Width.One))).head? = some (Width.More, Axis.Z) from rfl]
      simp only []
      cases hmid2 : randomRangeInclusive ((seed.get_field Axis.Z).1 + 1)
          ((seed.get_field Axis.Z).2 - 1) (rng) with
      | none =>
        exfalso
        have hcon := randomRangeInclusive_none hmid2
        simp only [Seed.get_field] at hcon
        omega
      | some mr =>
        try simp only []
        have hb := randomRangeInclusive_bounds hmid2
        have hlo : (seed.get_field Axis.Z).1 < mr.1 := by omega
        have hhi : mr.1 < (seed.get_field Axis.Z).2 := by
          simp only [Seed.get_field] at hb ⊢
          omega
        obtain ⟨res1, res2, hres1, hres2, hgok⟩ :=
          rec_core n ih seed Axis.Z mr.1 mr.2 hsum hpos hlo hhi (by omega) (by omega)
            (by omega)
        rw [hres1]
        try simp only []
        rw [hres2]
        try simp only []
        exact ⟨_, rfl, hgok⟩
    case One.Two.One =>
      have e1 := width_eq_one hw1
      have e2 := width_eq_two hw2
      have e3 := width_eq_one hw3
      rw [gen_tree.eq_def, hw1, hw2, hw3]
      simp only []
      rw [show List.countP (fun w => w == Width.One)
            [Width.One, Width.Two, Width.One] = 2 from rfl,
          show List.countP (fun w => w == Width.Two)
            [Width.One, Width.Two, Width.One] = 1 from rfl]
      simp only []
      rw [show ((([Width.One, Width.Two, Width.One]).zip Axis.ALL).filter
            (fun p => p.1 == Width.Two)).head? = some (Width.Two, Axis.Y) from rfl]
      simp only []
      have hlo : (seed.get_field Axis.Y).1 < (seed.get_field Axis.Y).1 + 1 := by omega
      have hhi : (seed.get_field Axis.Y).1 + 1 < (seed.get_field Axis.Y).2 := by
        simp only [Seed.get_field]
        omega
      cases hsr : (randomBool rng).1
      case true =>
        rw [if_pos rfl]
        obtain ⟨res1, res2, hres1, hres2, hgok⟩ :=
          rec_core n ih seed Axis.Y ((seed.get_field Axis.Y).1 + 1) ((randomBool rng).2)
            hsum hpos hlo hhi (by omega) (by omega) (by omega)
        rw [hres1]
        try simp only []
        rw [hres2]
        try simp only []
        exact ⟨_, rfl, hgok⟩
      case false =>
        rw [if_neg Bool.false_ne_true]
        cases hfr : (randomBool (randomBool rng).2).1
        case true =>
          rw [if_pos rfl]
          exact ⟨_, rfl, leaf_genOk seed _ _ (by omega)⟩
        case false =>
          rw [if_neg Bool.false_ne_true]
          exact ⟨_, rfl, leaf_genOk seed _ _ (by omega)⟩
    case One.Two.Two =>
      have e1 := width_eq_one hw1
      have e2 := width_eq_two hw2
      have e3 := width_eq_two hw3
      rw [gen_tree.eq_def, hw1, hw2, hw3]
      simp only []
      rw [countP_one_pos1 (by decide) (by decide)]
      simp only []
      rw [axes_filter_pos1 (by decide) (by decide), chooseList_two Axis.Y Axis.Z rng]
      simp only []
      by_cases hmod : rng 0 % 2 = 0
      · rw [if_pos hmod]
        cases hmid2 : randomRangeInclusive ((seed.get_field Axis.Y).1 + 1)
            ((seed.get_field Axis.Y).2 - 1) (rngTail rng) with
        | none =>
          exfalso
          have hcon := randomRangeInclusive_none hmid2
          simp only [Seed.get_field] at hcon
          omega
        | some mr =>
          try simp only []
          have hb := randomRangeInclusive_bounds hmid2
          have hlo : (seed.get_field Axis.Y).1 < mr.1 := by omega
          have hhi : mr.1 < (seed.get_field Axis.Y).2 := by
            simp only [Seed.get_field] at hb ⊢
            omega
          obtain ⟨res1, res2, hres1, hres2, hgok⟩ :=
            rec_core n ih seed Axis.Y mr.1 mr.2 hsum hpos hlo hhi (by omega) (by omega)
              (by omega)
          rw [hres1]
          try simp only []
          rw [hres2]
          try simp only []
          exact ⟨_, rfl, hgok⟩
      · rw [if_neg hmod]
        cases hmid2 : randomRangeInclusive ((seed.get_field Axis.Z).1 + 1)
            ((seed.get_field Axis.Z).2 - 1) (rngTail rng) with
        | none =>
          exfalso
          have hcon := randomRangeInclusive_none hmid2
          simp only [Seed.get_field] at hcon
          omega
        | some mr =>
          try simp only []
          have hb := randomRangeInclusive_bounds hmid2
          have hlo : (seed.get_field Axis.Z).1 < mr.1 := by omega
          have hhi : mr.1 < (seed.get_field Axis.Z).2 := by
            simp only [Seed.get_field] at hb ⊢
            omega
          obtain ⟨res1, res2, hres1, hres2, hgok⟩ :=
            rec_core n ih seed Axis.Z mr.1 mr.2 hsum hpos hlo hhi (by omega) (by omega)
              (by omega)
          rw [hres1]
          try simp only []
          rw [hres2]
          try simp only []
          exact ⟨_, rfl, hgok⟩
    case One.Two.More =>
      have e1 := width_eq_one hw1
      have e2 := width_eq_two hw2
      have e3 := width_more hw3
      rw [gen_tree.eq_def, hw1, hw2, hw3]
      simp only []
      rw [countP_one_pos1 (by decide) (by decide)]
      simp only []
      rw [axes_filter_pos1 (by decide) (by decide), chooseList_two Axis.Y Axis.Z rng]
      simp only []
      by_cases hmod : rng 0 % 2 = 0
      · rw [if_pos hmod]
        cases hmid2 : randomRangeInclusive ((seed.get_field Axis.Y).1 + 1)
            ((seed.get_field Axis.Y).2 - 1) (rngTail rng) with
        | none =>
          exfalso
          have hcon := randomRangeInclusive_none hmid2
          simp only [Seed.get_field] at hcon
          omega
        | some mr =>
          try simp only []
          have hb := randomRangeInclusive_bounds hmid2
          have hlo : (seed.get_field Axis.Y).1 < mr.1 := by omega
          have hhi : mr.1 < (seed.get_field Axis.Y).2 := by
            simp only [Seed.get_field] at hb ⊢
            omega
          obtain ⟨res1, res2, hres1, hres2, hgok⟩ :=
            rec_core n ih seed Axis.Y mr.1 mr.2 hsum hpos hlo hhi (by omega) (by omega)
              (by omega)
          rw [hres1]
          try simp only []
          rw [hres2]
          try simp only []
          exact ⟨_, rfl, hgok⟩
      · rw [if_neg hmod]
        cases hmid2 : randomRangeInclusive ((seed.get_field Axis.Z).1 + 1)
            ((seed.get_field Axis.Z).2 - 1) (rngTail rng) with
        | none =>
          exfalso
          have hcon := randomRangeInclusive_none hmid2
          simp only [Seed.get_field] at hcon
          omega
        | some mr =>
          try simp only []
          have hb := randomRangeInclusive_bounds hmid2
          have hlo : (seed.get_field Axis.Z).1 < mr.1 := by omega
          have hhi : mr.1 < (seed.get_field Axis.Z).2 := by
            simp only [Seed.get_field] at hb ⊢
            omega
          obtain ⟨res1, res2, hres1, hres2, hgok⟩ :=
            rec_core n ih seed Axis.Z mr.1 mr.2 hsum hpos hlo hhi (by omega) (by omega)
              (by omega)
          rw [hres1]
          try simp only []
          rw [hres2]
          try simp only []
          exact ⟨_, rfl, hgok⟩
    case One.More.One =>
      have e1 := width_eq_one hw1
      have e2 := width_more hw2
      have e3 := width_eq_one hw3
      rw [gen_tree.eq_def, hw1, hw2, hw3]
      simp only []
      rw [show List.countP (fun w => w == Width.One)
            [Width.One, Width.More, Width.One] = 2 from rfl,
          show List.countP (fun w => w == Width.Two)
            [Width.One, Width.More, Width.One] = 0 from rfl]
      simp only []
      rw [show ((([Width.One, Width.More, Width.One]).zip Axis.ALL).filter
            (fun p => !(p.1 == Width.One))).head? = some (Width.More, Axis.Y) from rfl]
      simp only []
      cases hmid2 : randomRangeInclusive ((seed.get_field Axis.Y).1 + 1)
          ((seed.get_field Axis.Y).2 - 1) (rng) with
      | none =>
        exfalso
        have hcon := randomRangeInclusive_none hmid2
        simp only [Seed.get_field] at hcon
        omega
      | some mr =>
        try simp only []
        have hb := randomRangeInclusive_bounds hmid2
        have hlo : (seed.get_field Axis.Y).1 < mr.1 := by omega
        have hhi : mr.1 < (seed.get_field Axis.Y).2 := by
          simp only [Seed.get_field] at hb ⊢
          omega
        obtain ⟨res1, res2, hres1, hres2, hgok⟩ :=
          rec_core n ih seed Axis.Y mr.1 mr.2 hsum hpos hlo hhi (by omega) (by omega)
            (by omega)
        rw [hres1]
        try simp only []
        rw [hres2]
        try simp only []
        exact ⟨_, rfl, hgok⟩
    case One.More.Two =>
      have e1 := width_eq_one hw1
      have e2 := width_more hw2
      have e3 := width_eq_two hw3
      rw [gen_tree.eq_def, hw1, hw2, hw3]
      simp only []
      rw [countP_one_pos1 (by decide) (by decide)]
      simp only []
      rw [axes_filter_pos1 (by decide) (by decide), chooseList_two Axis.Y Axis.Z rng]
      simp only []
      by_cases hmod : rng 0 % 2 = 0
      · rw [if_pos hmod]
        cases hmid2 : randomRangeInclusive ((seed.get_field Axis.Y).1 + 1)
            ((seed.get_field Axis.Y).2 - 1) (rngTail rng) with
        | none =>
          exfalso
          have hcon := randomRangeInclusive_none hmid2
          simp only [Seed.get_field] at hcon
          omega
        | some mr =>
          try simp only []
          have hb := randomRangeInclusive_bounds hmid2
          have hlo : (seed.get_field Axis.Y).1 < mr.1 := by omega
          have hhi : mr.1 < (seed.get_field Axis.Y).2 := by
            simp only [Seed.get_field] at hb ⊢
            omega
          obtain ⟨res1, res2, hres1, hres2, hgok⟩ :=
            rec_core n ih seed Axis.Y mr.1 mr.2 hsum hpos hlo hhi (by omega) (by omega)
              (by omega)
          rw [hres1]
          try simp only []
          rw [hres2]
          try simp only []
          exact ⟨_, rfl, hgok⟩
      · rw [if_neg hmod]
        cases hmid2 : randomRangeInclusive ((seed.get_field Axis.Z).1 + 1)
            ((seed.get_field Axis.Z).2 - 1) (rngTail rng) with
        | none =>
          exfalso
          have hcon := randomRangeInclusive_none hmid2
          simp only [Seed.get_field] at hcon
          omega
        | some mr =>
          try simp only []
          have hb := randomRangeInclusive_bounds hmid2
          have hlo : (seed.get_field Axis.Z).1 < mr.1 := by omega
          have hhi : mr.1 < (seed.get_field Axis.Z).2 := by
            simp only [Seed.get_field] at hb ⊢
            omega
          obtain ⟨res1, res2, hres1, hres2, hgok⟩ :=
            rec_core n ih seed Axis.Z mr.1 mr.2 hsum hpos hlo hhi (by omega) (by omega)
              (by omega)
          rw [hres1]
          try simp only []
          rw [hres2]
          try simp only []
          exact ⟨_, rfl, hgok⟩
    case One.More.More =>
      have e1 := width_eq_one hw1
      have e2 := width_more hw2
      have e3 := width_more hw3
      rw [gen_tree.eq_def, hw1, hw2, hw3]
      simp only []
      rw [countP_one_pos1 (by decide) (by decide)]
      simp only []
      rw [axes_filter_pos1 (by decide) (by decide), chooseList_two Axis.Y Axis.Z rng]
      simp only []
      by_cases hmod : rng 0 % 2 = 0
      · rw [if_pos hmod]
        cases hmid2 : randomRangeInclusive ((seed.get_field Axis.Y).1 + 1)
            ((seed.get_field Axis.Y).2 - 1) (rngTail rng) with
        | none =>
          exfalso
          have hcon := randomRangeInclusive_none hmid2
          simp only [Seed.get_field] at hcon
          omega
        | some mr =>
          try simp only []
          have hb := randomRangeInclusive_bounds hmid2
          have hlo : (seed.get_field Axis.Y).1 < mr.1 := by omega
          have hhi : mr.1 < (seed.get_field Axis.Y).2 := by
            simp only [Seed.get_field] at hb ⊢
            omega
          obtain ⟨res1, res2, hres1, hres2, hgok⟩ :=
            rec_core n ih seed Axis.Y mr.1 mr.2 hsum hpos hlo hhi (by omega) (by omega)
              (by omega)
          rw [hres1]
          try simp only []
          rw [hres2]
          try simp only []
          exact ⟨_, rfl, hgok⟩
      · rw [if_neg hmod]
        cases hmid2 : randomRangeInclusive ((seed.get_field Axis.Z).1 + 1)
            ((seed.get_field Axis.Z).2 - 1) (rngTail rng) with
        | none =>
          exfalso
          have hcon := randomRangeInclusive_none hmid2
          simp only [Seed.get_field] at hcon
          omega
        | some mr =>
          try simp only []
          have hb := randomRangeInclusive_bounds hmid2
          have hlo : (seed.get_field Axis.Z).1 < mr.1 := by omega
          have hhi : mr.1 < (seed.get_field Axis.Z).2 := by
            simp only [Seed.get_field] at hb ⊢
            omega
          obtain ⟨res1, res2, hres1, hres2, hgok⟩ :=
            rec_core n ih seed Axis.Z mr.1 mr.2 hsum hpos hlo hhi (by omega) (by omega)
              (by omega)
          rw [hres1]
          try simp only []
          rw [hres2]
          try simp only []
          exact ⟨_, rfl, hgok⟩
    case Two.One.One =>
      have e1 := width_eq_two hw1
      have e2 := width_eq_one hw2
      have e3 := width_eq_one hw3
      rw [gen_tree.eq_def, hw1, hw2, hw3]
      simp only []
      rw [show List.countP (fun w => w == Width.One)
            [Width.Two, Width.One, Width.One] = 2 from rfl,
          show List.countP (fun w => w == Width.Two)
            [Width.Two, Width.One, Width.One] = 1 from rfl]
      simp only []
      rw [show ((([Width.Two, Width.One, Width.One]).zip Axis.ALL).filter
            (fun p => p.1 == Width.Two)).head? = some (Width.Two, Axis.X) from rfl]
      simp only []
      have hlo : (seed.get_field Axis.X).1 < (seed.get_field Axis.X).1 + 1 := by omega
      have hhi : (seed.get_field Axis.X).1 + 1 < (seed.get_field Axis.X).2 := by
        simp only [Seed.get_field]
        omega
      cases hsr : (randomBool rng).1
      case true =>
        rw [if_pos rfl]
        obtain ⟨res1, res2, hres1, hres2, hgok⟩ :=
          rec_core n ih seed Axis.X ((seed.get_field Axis.X).1 + 1) ((randomBool rng).2)
            hsum hpos hlo hhi (by omega) (by omega) (by omega)
        rw [hres1]
        try simp only []
        rw [hres2]
        try simp only []
        exact ⟨_, rfl, hgok⟩
      case false =>
        rw [if_neg Bool.false_ne_true]
        cases hfr : (randomBool (randomBool rng).2).1
        case true =>
          rw [if_pos rfl]
          exact ⟨_, rfl, leaf_genOk seed _ _ (by omega)⟩
        case false =>
          rw [if_neg Bool.false_ne_true]
          exact ⟨_, rfl, leaf_genOk seed _ _ (by omega)⟩
    case Two.One.Two =>
      have e1 := width_eq_two hw1
      have e2 := width_eq_one hw2
      have e3 := width_eq_two hw3
      rw [gen_tree.eq_def, hw1, hw2, hw3]
      simp only []
      rw [countP_one_pos2 (by decide) (by decide)]
      simp only []
      rw [axes_filter_pos2 (by decide) (by decide), chooseList_two Axis.X Axis.Z rng]
      simp only []
      by_cases hmod : rng 0 % 2 = 0
      · rw [if_pos hmod]
        cases hmid2 : randomRangeInclusive ((seed.get_field Axis.X).1 + 1)
            ((seed.get_field Axis.X).2 - 1) (rngTail rng) with
        | none =>
          exfalso
          have hcon := randomRangeInclusive_none hmid2
          simp only [Seed.get_field] at hcon
          omega
        | some mr =>
          try simp only []
          have hb := randomRangeInclusive_bounds hmid2
          have hlo : (seed.get_field Axis.X).1 < mr.1 := by omega
          have hhi : mr.1 < (seed.get_field Axis.X).2 := by
            simp only [Seed.get_field] at hb ⊢
            omega
          obtain ⟨res1, res2, hres1, hres2, hgok⟩ :=
            rec_core n ih seed Axis.X mr.1 mr.2 hsum hpos hlo hhi (by omega) (by omega)
              (by omega)
          rw [hres1]
          try simp only []
          rw [hres2]
          try simp only []
          exact ⟨_, rfl, hgok⟩
      · rw [if_neg hmod]
        cases hmid2 : randomRangeInclusive ((seed.get_field Axis.Z).1 + 1)
            ((seed.get_field Axis.Z).2 - 1) (rngTail rng) with
        | none =>
          exfalso
          have hcon := randomRangeInclusive_none hmid2
          simp only [Seed.get_field] at hcon
          omega
        | some mr =>
          try simp only []
          have hb := randomRangeInclusive_bounds hmid2
          have hlo : (seed.get_field Axis.Z).1 < mr.1 := by omega
          have hhi : mr.1 < (seed.get_field Axis.Z).2 := by
            simp only [Seed.get_field] at hb ⊢
            omega
          obtain ⟨res1, res2, hres1, hres2, hgok⟩ :=
            rec_core n ih seed Axis.Z mr.1 mr.2 hsum hpos hlo hhi (by omega) (by omega)
              (by omega)
          rw [hres1]
          try simp only []
          rw [hres2]
          try simp only []
          exact ⟨_, rfl, hgok⟩
    case Two.One.More =>
      have e1 := width_eq_two hw1
      have e2 := width_eq_one hw2
      have e3 := width_more hw3
      rw [gen_tree.eq_def, hw1, hw2, hw3]
      simp only []
      rw [countP_one_pos2 (by decide) (by decide)]
      simp only []
      rw [axes_filter_pos2 (by decide) (by decide), chooseList_two Axis.X Axis.Z rng]
      simp only []
      by_cases hmod : rng 0 % 2 = 0
      · rw [if_pos hmod]
        cases hmid2 : randomRangeInclusive ((seed.get_field Axis.X).1 + 1)
            ((seed.get_field Axis.X).2 - 1) (rngTail rng) with
        | none =>
          exfalso
          have hcon := randomRangeInclusive_none hmid2
          simp only [Seed.get_field] at hcon
          omega
        | some mr =>
          try simp only []
          have hb := randomRangeInclusive_bounds hmid2
          have hlo : (seed.get_field Axis.X).1 < mr.1 := by omega
          have hhi : mr.1 < (seed.get_field Axis.X).2 := by
            simp only [Seed.get_field] at hb ⊢
            omega
          obtain ⟨res1, res2, hres1, hres2, hgok⟩ :=
            rec_core n ih seed Axis.X mr.1 mr.2 hsum hpos hlo hhi (by omega) (by omega)
              (by omega)
          rw [hres1]
          try simp only []
          rw [hres2]
          try simp only []
          exact ⟨_, rfl, hgok⟩
      · rw [if_neg hmod]
        cases hmid2 : randomRangeInclusive ((seed.get_field Axis.Z).1 + 1)
            ((seed.get_field Axis.Z).2 - 1) (rngTail rng) with
        | none =>
          exfalso
          have hcon := randomRangeInclusive_none hmid2
          simp only [Seed.get_field] at hcon
          omega
        | some mr =>
          try simp only []
          have hb := randomRangeInclusive_bounds hmid2
          have hlo : (seed.get_field Axis.Z).1 < mr.1 := by omega
          have hhi : mr.1 < (seed.get_field Axis.Z).2 := by
            simp only [Seed.get_field] at hb ⊢
            omega
          obtain ⟨res1, res2, hres1, hres2, hgok⟩ :=
            rec_core n ih seed Axis.Z mr.1 mr.2 hsum hpos hlo hhi (by omega) (by omega)
              (by omega)
          rw [hres1]
          try simp only []
          rw [hres2]
          try simp only []
          exact ⟨_, rfl, hgok⟩
    case Two.Two.One =>
      have e1 := width_eq_two hw1
      have e2 := width_eq_two hw2
      have e3 := width_eq_one hw3
      rw [gen_tree.eq_def, hw1, hw2, hw3]
      simp only []
      rw [countP_one_pos3 (by decide) (by decide)]
      simp only []
      rw [axes_filter_pos3 (by decide) (by decide), chooseList_two Axis.X Axis.Y rng]
      simp only []
      by_cases hmod : rng 0 % 2 = 0
      · rw [if_pos hmod]
        cases hmid2 : randomRangeInclusive ((seed.get_field Axis.X).1 + 1)
            ((seed.get_field Axis.X).2 - 1) (rngTail rng) with
        | none =>
          exfalso
          have hcon := randomRangeInclusive_none hmid2
          simp only [Seed.get_field] at hcon
          omega
        | some mr =>
          try simp only []
          have hb := randomRangeInclusive_bounds hmid2
          have hlo : (seed.get_field Axis.X).1 < mr.1 := by omega
          have hhi : mr.1 < (seed.get_field Axis.X).2 := by
            simp only [Seed.get_field] at hb ⊢
            omega
          obtain ⟨res1, res2, hres1, hres2, hgok⟩ :=
            rec_core n ih seed Axis.X mr.1 mr.2 hsum hpos hlo hhi (by omega) (by omega)
              (by omega)
          rw [hres1]
          try simp only []
          rw [hres2]
          try simp only []
          exact ⟨_, rfl, hgok⟩
      · rw [if_neg hmod]
        cases hmid2 : randomRangeInclusive ((seed.get_field Axis.Y).1 + 1)
            ((seed.get_field Axis.Y).2 - 1) (rngTail rng) with
        | none =>
          exfalso
          have hcon := randomRangeInclusive_none hmid2
          simp only [Seed.get_field] at hcon
          omega
        | some mr =>
          try simp only []
          have hb := randomRangeInclusive_bounds hmid2
          have hlo : (seed.get_field Axis.Y).1 < mr.1 := by omega
          have hhi : mr.1 < (seed.get_field Axis.Y).2 := by
            simp only [Seed.get_field] at hb ⊢
            omega
          obtain ⟨res1, res2, hres1, hres2, hgok⟩ :=
            rec_core n ih seed Axis.Y mr.1 mr.2 hsum hpos hlo hhi (by omega) (by omega)
              (by omega)
          rw [hres1]
          try simp only []
          rw [hres2]
          try simp only []
          exact ⟨_, rfl, hgok⟩
    case Two.Two.Two =>
      have e1 := width_eq_two hw1
      have e2 := width_eq_two hw2
      have e3 := width_eq_two hw3
      rw [gen_tree.eq_def, hw1, hw2, hw3]
      simp only []
      rw [countP_one_zero3 (by decide) (by decide) (by decide)]
      simp only [Axis.ALL]
      rw [chooseList_three Axis.X Axis.Y Axis.Z rng]
      simp only []
      by_cases hm0 : rng 0 % 3 = 0
      · rw [if_pos hm0]
        cases hmid2 : randomRangeInclusive ((seed.get_field Axis.X).1 + 1)
            ((seed.get_field Axis.X).2 - 1) (rngTail rng) with
        | none =>
          exfalso
          have hcon := randomRangeInclusive_none hmid2
          simp only [Seed.get_field] at hcon
          omega
        | some mr =>
          try simp only []
          have hb := randomRangeInclusive_bounds hmid2
          have hlo : (seed.get_field Axis.X).1 < mr.1 := by omega
          have hhi : mr.1 < (seed.get_field Axis.X).2 := by
            simp only [Seed.get_field] at hb ⊢
            omega
          obtain ⟨res1, res2, hres1, hres2, hgok⟩ :=
            rec_core n ih seed Axis.X mr.1 mr.2 hsum hpos hlo hhi (by omega) (by omega)
              (by omega)
          rw [hres1]
          try simp only []
          rw [hres2]
          try simp only []
          exact ⟨_, rfl, hgok⟩
      · by_cases hm1 : rng 0 % 3 = 1
        · rw [if_neg hm0, if_pos hm1]
          cases hmid2 : randomRangeInclusive ((seed.get_field Axis.Y).1 + 1)
              ((seed.get_field Axis.Y).2 - 1) (rngTail rng) with
          | none =>
            exfalso
            have hcon := randomRangeInclusive_none hmid2
            simp only [Seed.get_field] at hcon
            omega
          | some mr =>
            try simp only []
            have hb := randomRangeInclusive_bounds hmid2
            have hlo : (seed.get_field Axis.Y).1 < mr.1 := by omega
            have hhi : mr.1 < (seed.get_field Axis.Y).2 := by
              simp only [Seed.get_field] at hb ⊢
              omega
            obtain ⟨res1, res2, hres1, hres2, hgok⟩ :=
              rec_core n ih seed Axis.Y mr.1 mr.2 hsum hpos hlo hhi (by omega) (by omega)
                (by omega)
            rw [hres1]
            try simp only []
            rw [hres2]
            try simp only []
            exact ⟨_, rfl, hgok⟩
        · rw [if_neg hm0, if_neg hm1]
          cases hmid2 : randomRangeInclusive ((seed.get_field Axis.Z).1 + 1)
              ((seed.get_field Axis.Z).2 - 1) (rngTail rng) with
          | none =>
            exfalso
            have hcon := randomRangeInclusive_none hmid2
            simp only [Seed.get_field] at hcon
            omega
          | some mr =>
            try simp only []
            have hb := randomRangeInclusive_bounds hmid2
            have hlo : (seed.get_field Axis.Z).1 < mr.1 := by omega
            have hhi : mr.1 < (seed.get_field Axis.Z).2 := by
              simp only [Seed.get_field] at hb ⊢
              omega
            obtain ⟨res1, res2, hres1, hres2, hgok⟩ :=
              rec_core n ih seed Axis.Z mr.1 mr.2 hsum hpos hlo hhi (by omega) (by omega)
                (by omega)
            rw [hres1]
            try simp only []
            rw [hres2]
            try simp only []
            exact ⟨_, rfl, hgok⟩
    case Two.Two.More =>
      have e1 := width_eq_two hw1
      have e2 := width_eq_two hw2
      have e3 := width_more hw3
      rw [gen_tree.eq_def, hw1, hw2, hw3]
      simp only []
      rw [countP_one_zero3 (by decide) (by decide) (by decide)]
      simp only [Axis.ALL]
      rw [chooseList_three Axis.X Axis.Y Axis.Z rng]
      simp only []
      by_cases hm0 : rng 0 % 3 = 0
      · rw [if_pos hm0]
        cases hmid2 : randomRangeInclusive ((seed.get_field Axis.X).1 + 1)
            ((seed.get_field Axis.X).2 - 1) (rngTail rng) with
        | none =>
          exfalso
          have hcon := randomRangeInclusive_none hmid2
          simp only [Seed.get_field] at hcon
          omega
        | some mr =>
          try simp only []
          have hb := randomRangeInclusive_bounds hmid2
          have hlo : (seed.get_field Axis.X).1 < mr.1 := by omega
          have hhi : mr.1 < (seed.get_field Axis.X).2 := by
            simp only [Seed.get_field] at hb ⊢
            omega
          obtain ⟨res1, res2, hres1, hres2, hgok⟩ :=
            rec_core n ih seed Axis.X mr.1 mr.2 hsum hpos hlo hhi (by omega) (by omega)
              (by omega)
          rw [hres1]
          try simp only []
          rw [hres2]
          try simp only []
          exact ⟨_, rfl, hgok⟩
      · by_cases hm1 : rng 0 % 3 = 1
        · rw [if_neg hm0, if_pos hm1]
          cases hmid2 : randomRangeInclusive ((seed.get_field Axis.Y).1 + 1)
              ((seed.get_field Axis.Y).2 - 1) (rngTail rng) with
          | none =>
            exfalso
            have hcon := randomRangeInclusive_none hmid2
            simp only [Seed.get_field] at hcon
            omega
          | some mr =>
            try simp only []
            have hb := randomRangeInclusive_bounds hmid2
            have hlo : (seed.get_field Axis.Y).1 < mr.1 := by omega
            have hhi : mr.1 < (seed.get_field Axis.Y).2 := by
              simp only [Seed.get_field] at hb ⊢
              omega
            obtain ⟨res1, res2, hres1, hres2, hgok⟩ :=
              rec_core n ih seed Axis.Y mr.1 mr.2 hsum hpos hlo hhi (by omega) (by omega)
                (by omega)
            rw [hres1]
            try simp only []
            rw [hres2]
            try simp only []
            exact ⟨_, rfl, hgok⟩
        · rw [if_neg hm0, if_neg hm1]
          cases hmid2 : randomRangeInclusive ((seed.get_field Axis.Z).1 + 1)
              ((seed.get_field Axis.Z).2 - 1) (rngTail rng) with
          | none =>
            exfalso
            have hcon := randomRangeInclusive_none hmid2
            simp only [Seed.get_field] at hcon
            omega
          | some mr =>
            try simp only []
            have hb := randomRangeInclusive_bounds hmid2
            have hlo : (seed.get_field Axis.Z).1 < mr.1 := by omega
            have hhi : mr.1 < (seed.get_field Axis.Z).2 := by
              simp only [Seed.get_field] at hb ⊢
              omega
            obtain ⟨res1, res2, hres1, hres2, hgok⟩ :=
              rec_core n ih seed Axis.Z mr.1 mr.2 hsum hpos hlo hhi (by omega) (by omega)
                (by omega)
            rw [hres1]
            try simp only []
            rw [hres2]
            try simp only []
            exact ⟨_, rfl, hgok⟩
    case Two.More.One =>
      have e1 := width_eq_two hw1
      have e2 := width_more hw2
      have e3 := width_eq_one hw3
      rw [gen_tree.eq_def, hw1, hw2, hw3]
      simp only []
      rw [countP_one_pos3 (by decide) (by decide)]
      simp only []
      rw [axes_filter_pos3 (by decide) (by decide), chooseList_two Axis.X Axis.Y rng]
      simp only []
      by_cases hmod : rng 0 % 2 = 0
      · rw [if_pos hmod]
        cases hmid2 : randomRangeInclusive ((seed.get_field Axis.X).1 + 1)
            ((seed.get_field Axis.X).2 - 1) (rngTail rng) with
        | none =>
          exfalso
          have hcon := randomRangeInclusive_none hmid2
          simp only [Seed.get_field] at hcon
          omega
        | some mr =>
          try simp only []
          have hb := randomRangeInclusive_bounds hmid2
          have hlo : (seed.get_field Axis.X).1 < mr.1 := by omega
          have hhi : mr.1 < (seed.get_field Axis.X).2 := by
            simp only [Seed.get_field] at hb ⊢
            omega
          obtain ⟨res1, res2, hres1, hres2, hgok⟩ :=
            rec_core n ih seed Axis.X mr.1 mr.2 hsum hpos hlo hhi (by omega) (by omega)
              (by omega)
          rw [hres1]
          try simp only []
          rw [hres2]
          try simp only []
          exact ⟨_, rfl, hgok⟩
      · rw [if_neg hmod]
        cases hmid2 : randomRangeInclusive ((seed.get_field Axis.Y).1 + 1)
            ((seed.get_field Axis.Y).2 - 1) (rngTail rng) with
        | none =>
          exfalso
          have hcon := randomRangeInclusive_none hmid2
          simp only [Seed.get_field] at hcon
          omega
        | some mr =>
          try simp only []
          have hb := randomRangeInclusive_bounds hmid2
          have hlo : (seed.get_field Axis.Y).1 < mr.1 := by omega
          have hhi : mr.1 < (seed.get_field Axis.Y).2 := by
            simp only [Seed.get_field] at hb ⊢
            omega
          obtain ⟨res1, res2, hres1, hres2, hgok⟩ :=
            rec_core n ih seed Axis.Y mr.1 mr.2 hsum hpos hlo hhi (by omega) (by omega)
              (by omega)
          rw [hres1]
          try simp only []
          rw [hres2]
          try simp only []
          exact ⟨_, rfl, hgok⟩
    case Two.More.Two =>
      have e1 := width_eq_two hw1
      have e2 := width_more hw2
      have e3 := width_eq_two hw3
      rw [gen_tree.eq_def, hw1, hw2, hw3]
      simp only []
      rw [countP_one_zero3 (by decide) (by decide) (by decide)]
      simp only [Axis.ALL]
      rw [chooseList_three Axis.X Axis.Y Axis.Z rng]
      simp only []
      by_cases hm0 : rng 0 % 3 = 0
      · rw [if_pos hm0]
        cases hmid2 : randomRangeInclusive ((seed.get_field Axis.X).1 + 1)
            ((seed.get_field Axis.X).2 - 1) (rngTail rng) with
        | none =>
          exfalso
          have hcon := randomRangeInclusive_none hmid2
          simp only [Seed.get_field] at hcon
          omega
        | some mr =>
          try simp only []
          have hb := randomRangeInclusive_bounds hmid2
          have hlo : (seed.get_field Axis.X).1 < mr.1 := by omega
          have hhi : mr.1 < (seed.get_field Axis.X).2 := by
            simp only [Seed.get_field] at hb ⊢
            omega
          obtain ⟨res1, res2, hres1, hres2, hgok⟩ :=
            rec_core n ih seed Axis.X mr.1 mr.2 hsum hpos hlo hhi (by omega) (by omega)
              (by omega)
          rw [hres1]
          try simp only []
          rw [hres2]
          try simp only []
          exact ⟨_, rfl, hgok⟩
      · by_cases hm1 : rng 0 % 3 = 1
        · rw [if_neg hm0, if_pos hm1]
          cases hmid2 : randomRangeInclusive ((seed.get_field Axis.Y).1 + 1)
              ((seed.get_field Axis.Y).2 - 1) (rngTail rng) with
          | none =>
            exfalso
            have hcon := randomRangeInclusive_none hmid2
            simp only [Seed.get_field] at hcon
            omega
          | some mr =>
            try simp only []
            have hb := randomRangeInclusive_bounds hmid2
            have hlo : (seed.get_field Axis.Y).1 < mr.1 := by omega
            have hhi : mr.1 < (seed.get_field Axis.Y).2 := by
              simp only [Seed.get_field] at hb ⊢
              omega
            obtain ⟨res1, res2, hres1, hres2, hgok⟩ :=
              rec_core n ih seed Axis.Y mr.1 mr.2 hsum hpos hlo hhi (by omega) (by omega)
                (by omega)
            rw [hres1]
            try simp only []
            rw [hres2]
            try simp only []
            exact ⟨_, rfl, hgok⟩
        · rw [if_neg hm0, if_neg hm1]
          cases hmid2 : randomRangeInclusive ((seed.get_field Axis.Z).1 + 1)
              ((seed.get_field Axis.Z).2 - 1) (rngTail rng) with
          | none =>
            exfalso
            have hcon := randomRangeInclusive_none hmid2
            simp only [Seed.get_field] at hcon
            omega
          | some mr =>
            try simp only []
            have hb := randomRangeInclusive_bounds hmid2
            have hlo : (seed.get_field Axis.Z).1 < mr.1 := by omega
            have hhi : mr.1 < (seed.get_field Axis.Z).2 := by
              simp only [Seed.get_field] at hb ⊢
              omega
            obtain ⟨res1, res2, hres1, hres2, hgok⟩ :=
              rec_core n ih seed Axis.Z mr.1 mr.2 hsum hpos hlo hhi (by omega) (by omega)
                (by omega)
            rw [hres1]
            try simp only []
            rw [hres2]
            try simp only []
            exact ⟨_, rfl, hgok⟩
    case Two.More.More =>
      have e1 := width_eq_two hw1
      have e2 := width_more hw2
      have e3 := width_more hw3
      rw [gen_tree.eq_def, hw1, hw2, hw3]
      simp only []
      rw [countP_one_zero3 (by decide) (by decide) (by decide)]
      simp only [Axis.ALL]
      rw [chooseList_three Axis.X Axis.Y Axis.Z rng]
      simp only []
      by_cases hm0 : rng 0 % 3 = 0
      · rw [if_pos hm0]
        cases hmid2 : randomRangeInclusive ((seed.get_field Axis.X).1 + 1)
            ((seed.get_field Axis.X).2 - 1) (rngTail rng) with
        | none =>
          exfalso
          have hcon := randomRangeInclusive_none hmid2
          simp only [Seed.get_field] at hcon
          omega
        | some mr =>
          try simp only []
          have hb := randomRangeInclusive_bounds hmid2
          have hlo : (seed.get_field Axis.X).1 < mr.1 := by omega
          have hhi : mr.1 < (seed.get_field Axis.X).2 := by
            simp only [Seed.get_field] at hb ⊢
            omega
          obtain ⟨res1, res2, hres1, hres2, hgok⟩ :=
            rec_core n ih seed Axis.X mr.1 mr.2 hsum hpos hlo hhi (by omega) (by omega)
              (by omega)
          rw [hres1]
          try simp only []
          rw [hres2]
          try simp only []
          exact ⟨_, rfl, hgok⟩
      · by_cases hm1 : rng 0 % 3 = 1
        · rw [if_neg hm0, if_pos hm1]
          cases hmid2 : randomRangeInclusive ((seed.get_field Axis.Y).1 + 1)
              ((seed.get_field Axis.Y).2 - 1) (rngTail rng) with
          | none =>
            exfalso
            have hcon := randomRangeInclusive_none hmid2
            simp only [Seed.get_field] at hcon
            omega
          | some mr =>
            try simp only []
            have hb := randomRangeInclusive_bounds hmid2
            have hlo : (seed.get_field Axis.Y).1 < mr.1 := by omega
            have hhi : mr.1 < (seed.get_field Axis.Y).2 := by
              simp only [Seed.get_field] at hb ⊢
              omega
            obtain ⟨res1, res2, hres1, hres2, hgok⟩ :=
              rec_core n ih seed Axis.Y mr.1 mr.2 hsum hpos hlo hhi (by omega) (by omega)
                (by omega)
            rw [hres1]
            try simp only []
            rw [hres2]
            try simp only []
            exact ⟨_, rfl, hgok⟩
        · rw [if_neg hm0, if_neg hm1]
          cases hmid2 : randomRangeInclusive ((seed.get_field Axis.Z).1 + 1)
              ((seed.get_field Axis.Z).2 - 1) (rngTail rng) with
          | none =>
            exfalso
            have hcon := randomRangeInclusive_none hmid2
            simp only [Seed.get_field] at hcon
            omega
          | some mr =>
            try simp only []
            have hb := randomRangeInclusive_bounds hmid2
            have hlo : (seed.get_field Axis.Z).1 < mr.1 := by omega
            have hhi : mr.1 < (seed.get_field Axis.Z).2 := by
              simp only [Seed.get_field] at hb ⊢
              omega
            obtain ⟨res1, res2, hres1, hres2, hgok⟩ :=
              rec_core n ih seed Axis.Z mr.1 mr.2 hsum hpos hlo hhi (by omega) (by omega)
                (by omega)
            rw [hres1]
            try simp only []
            rw [hres2]
            try simp only []
            exact ⟨_, rfl, hgok⟩
    case More.One.One =>
      have e1 := width_more hw1
      have e2 := width_eq_one hw2
      have e3 := width_eq_one hw3
      rw [gen_tree.eq_def, hw1, hw2, hw3]
      simp only []
      rw [show List.countP (fun w => w == Width.One)
            [Width.More, Width.One, Width.One] = 2 from rfl,
          show List.countP (fun w => w == Width.Two)
            [Width.More, Width.One, Width.One] = 0 from rfl]
      simp only []
      rw [show ((([Width.More, Width.One, Width.One]).zip Axis.ALL).filter
            (fun p => !(p.1 == Width.One))).head? = some (Width.More, Axis.X) from rfl]
      simp only []
      cases hmid2 : randomRangeInclusive ((seed.get_field Axis.X).1 + 1)
          ((seed.get_field Axis.X).2 - 1) (rng) with
      | none =>
        exfalso
        have hcon := randomRangeInclusive_none hmid2
        simp only [Seed.get_field] at hcon
        omega
      | some mr =>
        try simp only []
        have hb := randomRangeInclusive_bounds hmid2
        have hlo : (seed.get_field Axis.X).1 < mr.1 := by omega
        have hhi : mr.1 < (seed.get_field Axis.X).2 := by
          simp only [Seed.get_field] at hb ⊢
          omega
        obtain ⟨res1, res2, hres1, hres2, hgok⟩ :=
          rec_core n ih seed Axis.X mr.1 mr.2 hsum hpos hlo hhi (by omega) (by omega)
            (by omega)
        rw [hres1]
        try simp only []
        rw [hres2]
        try simp only []
        exact ⟨_, rfl, hgok⟩
    case More.One.Two =>
      have e1 := width_more hw1
      have e2 := width_eq_one hw2
      have e3 := width_eq_two hw3
      rw [gen_tree.eq_def, hw1, hw2, hw3]
      simp only []
      rw [countP_one_pos2 (by decide) (by decide)]
      simp only []
      rw [axes_filter_pos2 (by decide) (by decide), chooseList_two Axis.X Axis.Z rng]
      simp only []
      by_cases hmod : rng 0 % 2 = 0
      · rw [if_pos hmod]
        cases hmid2 : randomRangeInclusive ((seed.get_field Axis.X).1 + 1)
            ((seed.get_field Axis.X).2 - 1) (rngTail rng) with
        | none =>
          exfalso
          have hcon := randomRangeInclusive_none hmid2
          simp only [Seed.get_field] at hcon
          omega
        | some mr =>
          try simp only []
          have hb := randomRangeInclusive_bounds hmid2
          have hlo : (seed.get_field Axis.X).1 < mr.1 := by omega
          have hhi : mr.1 < (seed.get_field Axis.X).2 := by
            simp only [Seed.get_field] at hb ⊢
            omega
          obtain ⟨res1, res2, hres1, hres2, hgok⟩ :=
            rec_core n ih seed Axis.X mr.1 mr.2 hsum hpos hlo hhi (by omega) (by omega)
              (by omega)
          rw [hres1]
          try simp only []
          rw [hres2]
          try simp only []
          exact ⟨_, rfl, hgok⟩
      · rw [if_neg hmod]
        cases hmid2 : randomRangeInclusive ((seed.get_field Axis.Z).1 + 1)
            ((seed.get_field Axis.Z).2 - 1) (rngTail rng) with
        | none =>
          exfalso
          have hcon := randomRangeInclusive_none hmid2
          simp only [Seed.get_field] at hcon
          omega
        | some mr =>
          try simp only []
          have hb := randomRangeInclusive_bounds hmid2
          have hlo : (seed.get_field Axis.Z).1 < mr.1 := by omega
          have hhi : mr.1 < (seed.get_field Axis.Z).2 := by
            simp only [Seed.get_field] at hb ⊢
            omega
          obtain ⟨res1, res2, hres1, hres2, hgok⟩ :=
            rec_core n ih seed Axis.Z mr.1 mr.2 hsum hpos hlo hhi (by omega) (by omega)
              (by omega)
          rw [hres1]
          try simp only []
          rw [hres2]
          try simp only []
          exact ⟨_, rfl, hgok⟩
    case More.One.More =>
      have e1 := width_more hw1
      have e2 := width_eq_one hw2
      have e3 := width_more hw3
      rw [gen_tree.eq_def, hw1, hw2, hw3]
      simp only []
      rw [countP_one_pos2 (by decide) (by decide)]
      simp only []
      rw [axes_filter_pos2 (by decide) (by decide), chooseList_two Axis.X Axis.Z rng]
      simp only []
      by_cases hmod : rng 0 % 2 = 0
      · rw [if_pos hmod]
        cases hmid2 : randomRangeInclusive ((seed.get_field Axis.X).1 + 1)
            ((seed.get_field Axis.X).2 - 1) (rngTail rng) with
        | none =>
          exfalso
          have hcon := randomRangeInclusive_none hmid2
          simp only [Seed.get_field] at hcon
          omega
        | some mr =>
          try simp only []
          have hb := randomRangeInclusive_bounds hmid2
          have hlo : (seed.get_field Axis.X).1 < mr.1 := by omega
          have hhi : mr.1 < (seed.get_field Axis.X).2 := by
            simp only [Seed.get_field] at hb ⊢
            omega
          obtain ⟨res1, res2, hres1, hres2, hgok⟩ :=
            rec_core n ih seed Axis.X mr.1 mr.2 hsum hpos hlo hhi (by omega) (by omega)
              (by omega)
          rw [hres1]
          try simp only []
          rw [hres2]
          try simp only []
          exact ⟨_, rfl, hgok⟩
      · rw [if_neg hmod]
        cases hmid2 : randomRangeInclusive ((seed.get_field Axis.Z).1 + 1)
            ((seed.get_field Axis.Z).2 - 1) (rngTail rng) with
        | none =>
          exfalso
          have hcon := randomRangeInclusive_none hmid2
          simp only [Seed.get_field] at hcon
          omega
        | some mr =>
          try simp only []
          have hb := randomRangeInclusive_bounds hmid2
          have hlo : (seed.get_field Axis.Z).1 < mr.1 := by omega
          have hhi : mr.1 < (seed.get_field Axis.Z).2 := by
            simp only [Seed.get_field] at hb ⊢
            omega
          obtain ⟨res1, res2, hres1, hres2, hgok⟩ :=
            rec_core n ih seed Axis.Z mr.1 mr.2 hsum hpos hlo hhi (by omega) (by omega)
              (by omega)
          rw [hres1]
          try simp only []
          rw [hres2]
          try simp only []
          exact ⟨_, rfl, hgok⟩
    case More.Two.One =>
      have e1 := width_more hw1
      have e2 := width_eq_two hw2
      have e3 := width_eq_one hw3
      rw [gen_tree.eq_def, hw1, hw2, hw3]
      simp only []
      rw [countP_one_pos3 (by decide) (by decide)]
      simp only []
      rw [axes_filter_pos3 (by decide) (by decide), chooseList_two Axis.X Axis.Y rng]
      simp only []
      by_cases hmod : rng 0 % 2 = 0
      · rw [if_pos hmod]
        cases hmid2 : randomRangeInclusive ((seed.get_field Axis.X).1 + 1)
            ((seed.get_field Axis.X).2 - 1) (rngTail rng) with
        | none =>
          exfalso
          have hcon := randomRangeInclusive_none hmid2
          simp only [Seed.get_field] at hcon
          omega
        | some mr =>
          try simp only []
          have hb := randomRangeInclusive_bounds hmid2
          have hlo : (seed.get_field Axis.X).1 < mr.1 := by omega
          have hhi : mr.1 < (seed.get_field Axis.X).2 := by
            simp only [Seed.get_field] at hb ⊢
            omega
          obtain ⟨res1, res2, hres1, hres2, hgok⟩ :=
            rec_core n ih seed Axis.X mr.1 mr.2 hsum hpos hlo hhi (by omega) (by omega)
              (by omega)
          rw [hres1]
          try simp only []
          rw [hres2]
          try simp only []
          exact ⟨_, rfl, hgok⟩
      · rw [if_neg hmod]
        cases hmid2 : randomRangeInclusive ((seed.get_field Axis.Y).1 + 1)
            ((seed.get_field Axis.Y).2 - 1) (rngTail rng) with
        | none =>
          exfalso
          have hcon := randomRangeInclusive_none hmid2
          simp only [Seed.get_field] at hcon
          omega
        | some mr =>
          try simp only []
          have hb := randomRangeInclusive_bounds hmid2
          have hlo : (seed.get_field Axis.Y).1 < mr.1 := by omega
          have hhi : mr.1 < (seed.get_field Axis.Y).2 := by
            simp only [Seed.get_field] at hb ⊢
            omega
          obtain ⟨res1, res2, hres1, hres2, hgok⟩ :=
            rec_core n ih seed Axis.Y mr.1 mr.2 hsum hpos hlo hhi (by omega) (by omega)
              (by omega)
          rw [hres1]
          try simp only []
          rw [hres2]
          try simp only []
          exact ⟨_, rfl, hgok⟩
    case More.Two.Two =>
      have e1 := width_more hw1
      have e2 := width_eq_two hw2
      have e3 := width_eq_two hw3
      rw [gen_tree.eq_def, hw1, hw2, hw3]
      simp only []
      rw [countP_one_zero3 (by decide) (by decide) (by decide)]
      simp only [Axis.ALL]
      rw [chooseList_three Axis.X Axis.Y Axis.Z rng]
      simp only []
      by_cases hm0 : rng 0 % 3 = 0
      · rw [if_pos hm0]
        cases hmid2 : randomRangeInclusive ((seed.get_field Axis.X).1 + 1)
            ((seed.get_field Axis.X).2 - 1) (rngTail rng) with
        | none =>
          exfalso
          have hcon := randomRangeInclusive_none hmid2
          simp only [Seed.get_field] at hcon
          omega
        | some mr =>
          try simp only []
          have hb := randomRangeInclusive_bounds hmid2
          have hlo : (seed.get_field Axis.X).1 < mr.1 := by omega
          have hhi : mr.1 < (seed.get_field Axis.X).2 := by
            simp only [Seed.get_field] at hb ⊢
            omega
          obtain ⟨res1, res2, hres1, hres2, hgok⟩ :=
            rec_core n ih seed Axis.X mr.1 mr.2 hsum hpos hlo hhi (by omega) (by omega)
              (by omega)
          rw [hres1]
          try simp only []
          rw [hres2]
          try simp only []
          exact ⟨_, rfl, hgok⟩
      · by_cases hm1 : rng 0 % 3 = 1
        · rw [if_neg hm0, if_pos hm1]
          cases hmid2 : randomRangeInclusive ((seed.get_field Axis.Y).1 + 1)
              ((seed.get_field Axis.Y).2 - 1) (rngTail rng) with
          | none =>
            exfalso
            have hcon := randomRangeInclusive_none hmid2
            simp only [Seed.get_field] at hcon
            omega
          | some mr =>
            try simp only []
            have hb := randomRangeInclusive_bounds hmid2
            have hlo : (seed.get_field Axis.Y).1 < mr.1 := by omega
            have hhi : mr.1 < (seed.get_field Axis.Y).2 := by
              simp only [Seed.get_field] at hb ⊢
              omega
            obtain ⟨res1, res2, hres1, hres2, hgok⟩ :=
              rec_core n ih seed Axis.Y mr.1 mr.2 hsum hpos hlo hhi (by omega) (by omega)
                (by omega)
            rw [hres1]
            try simp only []
            rw [hres2]
            try simp only []
            exact ⟨_, rfl, hgok⟩
        · rw [if_neg hm0, if_neg hm1]
          cases hmid2 : randomRangeInclusive ((seed.get_field Axis.Z).1 + 1)
              ((seed.get_field Axis.Z).2 - 1) (rngTail rng) with
          | none =>
            exfalso
            have hcon := randomRangeInclusive_none hmid2
            simp only [Seed.get_field] at hcon
            omega
          | some mr =>
            try simp only []
            have hb := randomRangeInclusive_bounds hmid2
            have hlo : (seed.get_field Axis.Z).1 < mr.1 := by omega
            have hhi : mr.1 < (seed.get_field Axis.Z).2 := by
              simp only [Seed.get_field] at hb ⊢
              omega
            obtain ⟨res1, res2, hres1, hres2, hgok⟩ :=
              rec_core n ih seed Axis.Z mr.1 mr.2 hsum hpos hlo hhi (by omega) (by omega)
                (by omega)
            rw [hres1]
            try simp only []
            rw [hres2]
            try simp only []
            exact ⟨_, rfl, hgok⟩
    case More.Two.More =>
      have e1 := width_more hw1
      have e2 := width_eq_two hw2
      have e3 := width_more hw3
      rw [gen_tree.eq_def, hw1, hw2, hw3]
      simp only []
      rw [countP_one_zero3 (by decide) (by decide) (by decide)]
      simp only [Axis.ALL]
      rw [chooseList_three Axis.X Axis.Y Axis.Z rng]
      simp only []
      by_cases hm0 : rng 0 % 3 = 0
      · rw [if_pos hm0]
        cases hmid2 : randomRangeInclusive ((seed.get_field Axis.X).1 + 1)
            ((seed.get_field Axis.X).2 - 1) (rngTail rng) with
        | none =>
          exfalso
          have hcon := randomRangeInclusive_none hmid2
          simp only [Seed.get_field] at hcon
          omega
        | some mr =>
          try simp only []
          have hb := randomRangeInclusive_bounds hmid2
          have hlo : (seed.get_field Axis.X).1 < mr.1 := by omega
          have hhi : mr.1 < (seed.get_field Axis.X).2 := by
            simp only [Seed.get_field] at hb ⊢
            omega
          obtain ⟨res1, res2, hres1, hres2, hgok⟩ :=
            rec_core n ih seed Axis.X mr.1 mr.2 hsum hpos hlo hhi (by omega) (by omega)
              (by omega)
          rw [hres1]
          try simp only []
          rw [hres2]
          try simp only []
          exact ⟨_, rfl, hgok⟩
      · by_cases hm1 : rng 0 % 3 = 1
        · rw [if_neg hm0, if_pos hm1]
          cases hmid2 : randomRangeInclusive ((seed.get_field Axis.Y).1 + 1)
              ((seed.get_field Axis.Y).2 - 1) (rngTail rng) with
          | none =>
            exfalso
            have hcon := randomRangeInclusive_none hmid2
            simp only [Seed.get_field] at hcon
            omega
          | some mr =>
            try simp only []
            have hb := randomRangeInclusive_bounds hmid2
            have hlo : (seed.get_field Axis.Y).1 < mr.1 := by omega
            have hhi : mr.1 < (seed.get_field Axis.Y).2 := by
              simp only [Seed.get_field] at hb ⊢
              omega
            obtain ⟨res1, res2, hres1, hres2, hgok⟩ :=
              rec_core n ih seed Axis.Y mr.1 mr.2 hsum hpos hlo hhi (by omega) (by omega)
                (by omega)
            rw [hres1]
            try simp only []
            rw [hres2]
            try simp only []
            exact ⟨_, rfl, hgok⟩
        · rw [if_neg hm0, if_neg hm1]
          cases hmid2 : randomRangeInclusive ((seed.get_field Axis.Z).1 + 1)
              ((seed.get_field Axis.Z).2 - 1) (rngTail rng) with
          | none =>
            exfalso
            have hcon := randomRangeInclusive_none hmid2
            simp only [Seed.get_field] at hcon
            omega
          | some mr =>
            try simp only []
            have hb := randomRangeInclusive_bounds hmid2
            have hlo : (seed.get_field Axis.Z).1 < mr.1 := by omega
            have hhi : mr.1 < (seed.get_field Axis.Z).2 := by
              simp only [Seed.get_field] at hb ⊢
              omega
            obtain ⟨res1, res2, hres1, hres2, hgok⟩ :=
              rec_core n ih seed Axis.Z mr.1 mr.2 hsum hpos hlo hhi (by omega) (by omega)
                (by omega)
            rw [hres1]
            try simp only []
            rw [hres2]
            try simp only []
            exact ⟨_, rfl, hgok⟩
    case More.More.One =>
      have e1 := width_more hw1
      have e2 := width_more hw2
      have e3 := width_eq_one hw3
      rw [gen_tree.eq_def, hw1, hw2, hw3]
      simp only []
      rw [countP_one_pos3 (by decide) (by decide)]
      simp only []
      rw [axes_filter_pos3 (by decide) (by decide), chooseList_two Axis.X Axis.Y rng]
      simp only []
      by_cases hmod : rng 0 % 2 = 0
      · rw [if_pos hmod]
        cases hmid2 : randomRangeInclusive ((seed.get_field Axis.X).1 + 1)
            ((seed.get_field Axis.X).2 - 1) (rngTail rng) with
        | none =>
          exfalso
          have hcon := randomRangeInclusive_none hmid2
          simp only [Seed.get_field] at hcon
          omega
        | some mr =>
          try simp only []
          have hb := randomRangeInclusive_bounds hmid2
          have hlo : (seed.get_field Axis.X).1 < mr.1 := by omega
          have hhi : mr.1 < (seed.get_field Axis.X).2 := by
            simp only [Seed.get_field] at hb ⊢
            omega
          obtain ⟨res1, res2, hres1, hres2, hgok⟩ :=
            rec_core n ih seed Axis.X mr.1 mr.2 hsum hpos hlo hhi (by omega) (by omega)
              (by omega)
          rw [hres1]
          try simp only []
          rw [hres2]
          try simp only []
          exact ⟨_, rfl, hgok⟩
      · rw [if_neg hmod]
        cases hmid2 : randomRangeInclusive ((seed.get_field Axis.Y).1 + 1)
            ((seed.get_field Axis.Y).2 - 1) (rngTail rng) with
        | none =>
          exfalso
          have hcon := randomRangeInclusive_none hmid2
          simp only [Seed.get_field] at hcon
          omega
        | some mr =>
          try simp only []
          have hb := randomRangeInclusive_bounds hmid2
          have hlo : (seed.get_field Axis.Y).1 < mr.1 := by omega
          have hhi : mr.1 < (seed.get_field Axis.Y).2 := by
            simp only [Seed.get_field] at hb ⊢
            omega
          obtain ⟨res1, res2, hres1, hres2, hgok⟩ :=
            rec_core n ih seed Axis.Y mr.1 mr.2 hsum hpos hlo hhi (by omega) (by omega)
              (by omega)
          rw [hres1]
          try simp only []
          rw [hres2]
          try simp only []
          exact ⟨_, rfl, hgok⟩
    case More.More.Two =>
      have e1 := width_more hw1
      have e2 := width_more hw2
      have e3 := width_eq_two hw3
      rw [gen_tree.eq_def, hw1, hw2, hw3]
      simp only []
      rw [countP_one_zero3 (by decide) (by decide) (by decide)]
      simp only [Axis.ALL]
      rw [chooseList_three Axis.X Axis.Y Axis.Z rng]
      simp only []
      by_cases hm0 : rng 0 % 3 = 0
      · rw [if_pos hm0]
        cases hmid2 : randomRangeInclusive ((seed.get_field Axis.X).1 + 1)
            ((seed.get_field Axis.X).2 - 1) (rngTail rng) with
        | none =>
          exfalso
          have hcon := randomRangeInclusive_none hmid2
          simp only [Seed.get_field] at hcon
          omega
        | some mr =>
          try simp only []
          have hb := randomRangeInclusive_bounds hmid2
          have hlo : (seed.get_field Axis.X).1 < mr.1 := by omega
          have hhi : mr.1 < (seed.get_field Axis.X).2 := by
            simp only [Seed.get_field] at hb ⊢
            omega
          obtain ⟨res1, res2, hres1, hres2, hgok⟩ :=
            rec_core n ih seed Axis.X mr.1 mr.2 hsum hpos hlo hhi (by omega) (by omega)
              (by omega)
          rw [hres1]
          try simp only []
          rw [hres2]
          try simp only []
          exact ⟨_, rfl, hgok⟩
      · by_cases hm1 : rng 0 % 3 = 1
        · rw [if_neg hm0, if_pos hm1]
          cases hmid2 : randomRangeInclusive ((seed.get_field Axis.Y).1 + 1)
              ((seed.get_field Axis.Y).2 - 1) (rngTail rng) with
          | none =>
            exfalso
            have hcon := randomRangeInclusive_none hmid2
            simp only [Seed.get_field] at hcon
            omega
          | some mr =>
            try simp only []
            have hb := randomRangeInclusive_bounds hmid2
            have hlo : (seed.get_field Axis.Y).1 < mr.1 := by omega
            have hhi : mr.1 < (seed.get_field Axis.Y).2 := by
              simp only [Seed.get_field] at hb ⊢
              omega
            obtain ⟨res1, res2, hres1, hres2, hgok⟩ :=
              rec_core n ih seed Axis.Y mr.1 mr.2 hsum hpos hlo hhi (by omega) (by omega)
                (by omega)
            rw [hres1]
            try simp only []
            rw [hres2]
            try simp only []
            exact ⟨_, rfl, hgok⟩
        · rw [if_neg hm0, if_neg hm1]
          cases hmid2 : randomRangeInclusive ((seed.get_field Axis.Z).1 + 1)
              ((seed.get_field Axis.Z).2 - 1) (rngTail rng) with
          | none =>
            exfalso
            have hcon := randomRangeInclusive_none hmid2
            simp only [Seed.get_field] at hcon
            omega
          | some mr =>
            try simp only []
            have hb := randomRangeInclusive_bounds hmid2
            have hlo : (seed.get_field Axis.Z).1 < mr.1 := by omega
            have hhi : mr.1 < (seed.get_field Axis.Z).2 := by
              simp only [Seed.get_field] at hb ⊢
              omega
            obtain ⟨res1, res2, hres1, hres2, hgok⟩ :=
              rec_core n ih seed Axis.Z mr.1 mr.2 hsum hpos hlo hhi (by omega) (by omega)
                (by omega)
            rw [hres1]
            try simp only []
            rw [hres2]
            try simp only []
            exact ⟨_, rfl, hgok⟩
    case More.More.More =>
      have e1 := width_more hw1
      have e2 := width_more hw2
      have e3 := width_more hw3
      rw [gen_tree.eq_def, hw1, hw2, hw3]
      simp only []
      rw [countP_one_zero3 (by decide) (by decide) (by decide)]
      simp only [Axis.ALL]
      rw [chooseList_three Axis.X Axis.Y Axis.Z rng]
      simp only []
      by_cases hm0 : rng 0 % 3 = 0
      · rw [if_pos hm0]
        cases hmid2 : randomRangeInclusive ((seed.get_field Axis.X).1 + 1)
            ((seed.get_field Axis.X).2 - 1) (rngTail rng) with
        | none =>
          exfalso
          have hcon := randomRangeInclusive_none hmid2
          simp only [Seed.get_field] at hcon
          omega
        | some mr =>
          try simp only []
          have hb := randomRangeInclusive_bounds hmid2
          have hlo : (seed.get_field Axis.X).1 < mr.1 := by omega
          have hhi : mr.1 < (seed.get_field Axis.X).2 := by
            simp only [Seed.get_field] at hb ⊢
            omega
          obtain ⟨res1, res2, hres1, hres2, hgok⟩ :=
            rec_core n ih seed Axis.X mr.1 mr.2 hsum hpos hlo hhi (by omega) (by omega)
              (by omega)
          rw [hres1]
          try simp only []
          rw [hres2]
          try simp only []
          exact ⟨_, rfl, hgok⟩
      · by_cases hm1 : rng 0 % 3 = 1
        · rw [if_neg hm0, if_pos hm1]
          cases hmid2 : randomRangeInclusive ((seed.get_field Axis.Y).1 + 1)
              ((seed.get_field Axis.Y).2 - 1) (rngTail rng) with
          | none =>
            exfalso
            have hcon := randomRangeInclusive_none hmid2
            simp only [Seed.get_field] at hcon
            omega
          | some mr =>
            try simp only []
            have hb := randomRangeInclusive_bounds hmid2
            have hlo : (seed.get_field Axis.Y).1 < mr.1 := by omega
            have hhi : mr.1 < (seed.get_field Axis.Y).2 := by
              simp only [Seed.get_field] at hb ⊢
              omega
            obtain ⟨res1, res2, hres1, hres2, hgok⟩ :=
              rec_core n ih seed Axis.Y mr.1 mr.2 hsum hpos hlo hhi (by omega) (by omega)
                (by omega)
            rw [hres1]
            try simp only []
            rw [hres2]
            try simp only []
            exact ⟨_, rfl, hgok⟩
        · rw [if_neg hm0, if_neg hm1]
          cases hmid2 : randomRangeInclusive ((seed.get_field Axis.Z).1 + 1)
              ((seed.get_field Axis.Z).2 - 1) (rngTail rng) with
          | none =>
            exfalso
            have hcon := randomRangeInclusive_none hmid2
            simp only [Seed.get_field] at hcon
            omega
          | some mr =>
            try simp only []
            have hb := randomRangeInclusive_bounds hmid2
            have hlo : (seed.get_field Axis.Z).1 < mr.1 := by omega
            have hhi : mr.1 < (seed.get_field Axis.Z).2 := by
              simp only [Seed.get_field] at hb ⊢
              omega
            obtain ⟨res1, res2, hres1, hres2, hgok⟩ :=
              rec_core n ih seed Axis.Z mr.1 mr.2 hsum hpos hlo hhi (by omega) (by omega)
                (by omega)
            rw [hres1]
            try simp only []
            rw [hres2]
            try simp only []
            exact ⟨_, rfl, hgok⟩

def IVec3.minv (a b : IVec3) : IVec3 :=
  ⟨Min.min a.x b.x, Min.min a.y b.y, Min.min a.z b.z⟩

def IVec3.maxv (a b : IVec3) : IVec3 :=
  ⟨Max.max a.x b.x, Max.max a.y b.y, Max.max a.z b.z⟩

/-- bevy IVec3::MAX: all components i32::MAX. -/
def IVec3.MAXC : IVec3 := ⟨2147483647, 2147483647, 2147483647⟩

/-- bevy IVec3::MIN: all components i32::MIN. -/
def IVec3.MINC : IVec3 := ⟨-2147483648, -2147483648, -2147483648⟩

/-- The integers of the half-open Rust range lo..hi, in order. -/
def intRange (lo hi : Int) : List Int :=
  (List.range (hi - lo).toNat).map (fun i => lo + (i : Int))

/-- Three axis passes; each pass scans every projected grid cell, extracts
the line of blocks through it, and immediately deletes the locked ones. -/
def remove_locked (blocks0 : List Block) : List Block :=
  let lower := blocks0.foldl (fun acc v => acc.minv v.min) IVec3.MAXC
  let upper := blocks0.foldl (fun acc v => acc.maxv v.max) IVec3.MINC
  Axis.ALL.foldl (fun blocks axis =>
    let remaining := axis.remaining_two
    let lower_proj := project_ivec lower remaining
    let upper_proj := project_ivec upper remaining
    (intRange lower_proj.x upper_proj.x).foldl (fun blocks x =>
      (intRange lower_proj.y upper_proj.y).foldl (fun blocks y =>
        let p : Vec2Q := ⟨(x : Rat) + 1/2, (y : Rat) + 1/2⟩
        let line_of_blocks := extract_along_line axis p blocks
        let to_remove := locked_blocks_to_remove line_of_blocks
        blocks.filter (fun b => !(to_remove.contains b))) blocks) blocks) blocks0

/-- Level generation: subdivide the cubic seed, keep the directed leaves,
prune the locked blocks. The u8 side length is modelled as a Nat reduced
mod 256; generator panics propagate as none. -/
def generate_level (rng : Rng) (side_len : Nat) : Option (List Block) :=
  let len : Int := Int.ofNat (side_len % 256)
  let seed : Seed := ⟨(0, len), (0, len), (0, len)⟩
  match gen_tree rng seed with
  | none => none
  | some tr =>
      let gblocks := flatten_tree tr.1
      let blocks := gblocks_to_blocks gblocks
      some (remove_locked blocks)

/-- A well-shaped gameplay block, the Block counterpart of goodGBlock. -/
def goodBlock (b : Block) : Prop :=
  (b.min.x < b.max.x ∧ b.min.y < b.max.y ∧ b.min.z < b.max.z) ∧
  (b.get_isize = ⟨1, 1, 1⟩ ∨ b.get_isize = ⟨2, 1, 1⟩ ∨
   b.get_isize = ⟨1, 2, 1⟩ ∨ b.get_isize = ⟨1, 1, 2⟩)

instance goodBlock.dec (b : Block) : Decidable (goodBlock b) := by
  unfold goodBlock
  infer_instance

instance posWidths.dec (s : Seed) : Decidable (posWidths s) := by
  unfold posWidths
  infer_instance

lemma foldl_filter_subset {β : Type} (f : List Block → β → List Block)
    (hf : ∀ s x, ∀ b ∈ f s x, b ∈ s) :
    ∀ (l : List β) (s : List Block) (b : Block), b ∈ List.foldl f s l → b ∈ s := by
  intro l
  induction l with
  | nil => intro s b h; exact h
  | cons x xs ih =>
    intro s b h
    exact hf s x b (ih (f s x) b h)

lemma remove_locked_subset (blocks0 : List Block) :
    ∀ b ∈ remove_locked blocks0, b ∈ blocks0 := by
  intro b hb
  unfold remove_locked at hb
  refine foldl_filter_subset _ ?_ Axis.ALL blocks0 b hb
  intro s axis b2 hb2
  refine foldl_filter_subset _ ?_ _ s b2 hb2
  intro s2 x b3 hb3
  refine foldl_filter_subset _ ?_ _ s2 b3 hb3
  intro s3 y b4 hb4
  exact (List.mem_filter.mp hb4).1

lemma gblocks_to_blocks_mem {gl : List GBlock} {b : Block}
    (h : b ∈ gblocks_to_blocks gl) :
    ∃ g ∈ gl, b.min = g.min ∧ b.max = g.max := by
  unfold gblocks_to_blocks at h
  obtain ⟨g, hg, hconv⟩ := List.mem_filterMap.mp h
  unfold gblock_to_block at hconv
  cases hd : g.direction with
  | none =>
    rw [hd] at hconv
    exact Option.noConfusion hconv
  | some d =>
    rw [hd] at hconv
    injection hconv with h2
    exact ⟨g, hg, by rw [← h2], by rw [← h2]⟩

/-- Claim C9: on a seed with min < max on all three axes, gen_tree never
reaches a fatal branch for any random choice sequence — no width panic, no
unreachable (ones, twos) combination, no failing unwrap or empty range. -/
theorem c9_gen_tree_no_panic (seed : Seed) (rng : Rng) (hpos : posWidths seed) :
    (gen_tree rng seed).isSome = true := by
  obtain ⟨res, hres, -⟩ :=
    gen_tree_master (sumWidths seed) seed rng (le_refl _) hpos
  rw [hres]
  rfl

def genSeed1 : Seed := ⟨(0, 1), (0, 1), (0, 1)⟩

def rng0 : Rng := fun _ => 0

/-- Claim C9 witness: the unit seed with an all-zero choice stream. -/
theorem c9_witness : posWidths genSeed1 ∧ (gen_tree rng0 genSeed1).isSome = true :=
  ⟨by decide, c9_gen_tree_no_panic genSeed1 rng0 (by decide)⟩

/-- Claim C5: for any non-degenerate seed and any choice sequence, every leaf
of the generated tree is a box with min < max whose extent is (1,1,1) or has
exactly one component 2; the same holds for the Blocks converted from those
leaves and for every block of a generated level. -/
theorem c5_leaf_extents :
    (∀ (seed : Seed) (rng : Rng) (t : Tree) (r2 : Rng),
      posWidths seed → gen_tree rng seed = some (t, r2) →
      ∀ g ∈ flatten_tree t, goodGBlock g) ∧
    (∀ (seed : Seed) (rng : Rng) (t : Tree) (r2 : Rng),
      posWidths seed → gen_tree rng seed = some (t, r2) →
      ∀ b ∈ gblocks_to_blocks (flatten_tree t), goodBlock b) ∧
    (∀ (rng : Rng) (side_len : Nat) (blocks : List Block),
      1 ≤ side_len % 256 → generate_level rng side_len = some blocks →
      ∀ b ∈ blocks, goodBlock b) := by
  have hleaf : ∀ (seed : Seed) (rng : Rng) (t : Tree) (r2 : Rng),
      posWidths seed → gen_tree rng seed = some (t, r2) →
      ∀ g ∈ flatten_tree t, goodGBlock g := by
    intro seed rng t r2 hpos h
    obtain ⟨res, hres, hgok⟩ :=
      gen_tree_master (sumWidths seed) seed rng (le_refl _) hpos
    rw [h] at hres
    injection hres with h2
    rw [← h2] at hgok
    exact hgok.1
  have hblocks : ∀ (seed : Seed) (rng : Rng) (t : Tree) (r2 : Rng),
      posWidths seed → gen_tree rng seed = some (t, r2) →
      ∀ b ∈ gblocks_to_blocks (flatten_tree t), goodBlock b := by
    intro seed rng t r2 hpos h b hb
    obtain ⟨g, hg, hmin, hmax⟩ := gblocks_to_blocks_mem hb
    have hgood := hleaf seed rng t r2 hpos h g hg
    unfold goodBlock Block.get_isize
    rw [hmin, hmax]
    exact hgood
  refine ⟨hleaf, hblocks, ?_⟩
  intro rng side_len blocks hside h b hb
  simp only [generate_level] at h
  have hpos : posWidths ⟨(0, Int.ofNat (side_len % 256)), (0, Int.ofNat (side_len % 256)),
      (0, Int.ofNat (side_len % 256))⟩ := by
    unfold posWidths
    simp only [Int.ofNat_eq_natCast]
    omega
  obtain ⟨res, hres, hgok⟩ :=
    gen_tree_master (sumWidths ⟨(0, Int.ofNat (side_len % 256)),
      (0, Int.ofNat (side_len % 256)), (0, Int.ofNat (side_len % 256))⟩) _ rng (le_refl _) hpos
  rw [hres] at h
  injection h with h2
  rw [← h2] at hb
  have hb2 := remove_locked_subset _ b hb
  obtain ⟨g, hg, hmin, hmax⟩ := gblocks_to_blocks_mem hb2
  have hgood := hgok.1 g hg
  unfold goodBlock Block.get_isize
  rw [hmin, hmax]
  exact hgood

def c5tree : Tree := Tree.Leaf ⟨some ⟨Axis.X, true⟩, ⟨0, 0, 0⟩, ⟨1, 1, 1⟩⟩

def c5rng2 : Rng := rngTail (rngTail (rngTail rng0))

def c5block : Block := ⟨⟨Axis.X, true⟩, ⟨0, 0, 0⟩, ⟨1, 1, 1⟩⟩

lemma gen_tree_unit_seed :
    gen_tree rng0 genSeed1 = some (c5tree, c5rng2) := by
  rw [gen_tree.eq_def]
  rfl

lemma foldl_const {α β : Type} (f : β → α → β) (s : β) (h : ∀ x, f s x = s)
    (l : List α) : List.foldl f s l = s := by
  induction l with
  | nil => rfl
  | cons a t ih =>
    rw [List.foldl_cons, h a]
    exact ih

lemma locked_single (b : Block) (line : List Block) (hsub : line = [] ∨ line = [b]) :
    locked_blocks_to_remove line = [] := by
  rcases hsub with rfl | rfl
  · rfl
  · unfold locked_blocks_to_remove locked_scan
    by_cases hp : b.direction.positive <;> simp [hp, locked_scan]

lemma extract_single (axis : Axis) (p : Vec2Q) (b : Block) :
    extract_along_line axis p [b] = [] ∨ extract_along_line axis p [b] = [b] := by
  unfold extract_along_line
  simp only [List.filter]
  split
  · right; rfl
  · left; rfl

/-- Pruning a single-block level removes nothing: every extracted line is
empty or the block alone, and a one-block line is never locked. -/
lemma remove_locked_single (b : Block) : remove_locked [b] = [b] := by
  unfold remove_locked
  simp only []
  refine foldl_const _ _ ?_ _
  intro axis
  refine foldl_const _ _ ?_ _
  intro x
  refine foldl_const _ _ ?_ _
  intro y
  rw [locked_single b _ (extract_single _ _ _)]
  simp

lemma generate_level_one : generate_level rng0 1 = some [c5block] := by
  unfold generate_level
  simp only []
  have hgen : gen_tree rng0 ⟨(0, Int.ofNat (1 % 256)), (0, Int.ofNat (1 % 256)),
      (0, Int.ofNat (1 % 256))⟩ = some (c5tree, c5rng2) := by
    rw [gen_tree.eq_def]
    rfl
  rw [hgen]
  simp only []
  rw [show gblocks_to_blocks (flatten_tree c5tree) = [c5block] from rfl]
  rw [remove_locked_single]

/-- Claim C5 witness: the unit seed yields one directed unit leaf; the one
generated block of a side-1 level is well shaped. -/
theorem c5_witness :
    posWidths genSeed1 ∧ gen_tree rng0 genSeed1 = some (c5tree, c5rng2) ∧
    (∀ g ∈ flatten_tree c5tree, goodGBlock g) ∧
    1 ≤ 1 % 256 ∧ generate_level rng0 1 = some [c5block] ∧
    (∀ b ∈ [c5block], goodBlock b) :=
  ⟨by decide, gen_tree_unit_seed,
   c5_leaf_extents.1 genSeed1 rng0 c5tree c5rng2 (by decide) gen_tree_unit_seed,
   by decide, generate_level_one,
   c5_leaf_extents.2.2 rng0 1 [c5block] (by decide) generate_level_one⟩

/-- Claim C6: the boxes of all leaves collected by flatten_tree from a
generated tree tile the seed volume exactly: each unit cell of the seed box
lies in exactly one leaf box, and no cell outside is covered. -/
theorem c6_leaves_partition (seed : Seed) (rng : Rng) (t : Tree) (r2 : Rng)
    (hpos : posWidths seed) (h : gen_tree rng seed = some (t, r2)) :
    ∀ p : IVec3, (flatten_tree t).countP (cellInGBlock p) =
      if cellInSeed p seed then 1 else 0 := by
  obtain ⟨res, hres, hgok⟩ :=
    gen_tree_master (sumWidths seed) seed rng (le_refl _) hpos
  rw [h] at hres
  injection hres with h2
  rw [← h2] at hgok
  exact hgok.2

/-- Claim C6 witness: the unit seed's single leaf covers exactly its one
cell. -/
theorem c6_witness :
    posWidths genSeed1 ∧ gen_tree rng0 genSeed1 = some (c5tree, c5rng2) ∧
    (∀ p : IVec3, (flatten_tree c5tree).countP (cellInGBlock p) =
      if cellInSeed p genSeed1 then 1 else 0) :=
  ⟨by decide, gen_tree_unit_seed,
   c6_leaves_partition genSeed1 rng0 c5tree c5rng2 (by decide) gen_tree_unit_seed⟩

end ClearCube
